import Mathlib

/-!
Shallow embedding of `RSSscpi/gen/Instrument.py` (command dispatch and
error-correlation engine of the RSSscpi instrument-control library).

The Python source is translated definition by definition:

* `SCPICmdFormatter` (a `string.Formatter` subclass) — the argument formatter;
* `LimitedCapacityDict` (an `OrderedDict` subclass) — the bounded debug history;
* `Instrument` — dispatcher state (`command_cnt`, `_cmd_debug`, the two queues,
  the two locks) together with `check_error_queue`, `_call_visa`,
  `_build_arg_str`, `_write`/`write`, `_query`/`query`, `_get_error_queue`,
  `_service_request_handler` and `init`.

Modelling conventions:

* Python exceptions are `Except` values; the state is threaded explicitly and
  is also returned on the error path (Python mutations survive a raise).
* The VISA transport is an oracle: each operation takes a `VisaResult`
  describing what the underlying `visa_res.write`/`query` call would do, and
  `query` additionally takes the (possibly arriving) error of the grace-period
  wait `error_queue.get(timeout=1)` as an `Option InstrumentError`.
* The two `threading.Lock`s are booleans recording whether they are held; the
  wall clock (`timeit.default_timer`) is an abstract `Nat` passed in.
* `Instrument.cnt_log` is ghost instrumentation: one `(command text, IO-lock
  state)` entry is appended exactly where `_call_visa` performs
  `self.command_cnt += 1` and the adjacent `self._cmd_debug[arg] = ...`.
  It does not influence any other field.
* Bounded recursions that Python performs by regex backtracking or by string
  scanning are given explicit fuel that over-approximates the number of
  iterations (each iteration consumes at least one character), keeping every
  definition structurally recursive and kernel-evaluable.
-/

set_option maxHeartbeats 4000000
set_option maxRecDepth 4000

/-- Decidable equality for `Except` results, used to evaluate the model on
concrete inputs. -/
instance {ε α : Type} [DecidableEq ε] [DecidableEq α] : DecidableEq (Except ε α) := fun a b =>
  match a, b with
  | .ok x, .ok y => if h : x = y then .isTrue (by rw [h]) else .isFalse (by simp [h])
  | .ok _, .error _ => .isFalse (by simp)
  | .error _, .ok _ => .isFalse (by simp)
  | .error x, .error y => if h : x = y then .isTrue (by rw [h]) else .isFalse (by simp [h])

/-- A single-quote character as a one-character string (`chr(39)`). -/
def squote : String := String.singleton (Char.ofNat 39)

/-- The Python values that flow through the SCPI command formatter in the
source: integers, strings, and ordered sequences (lists/tuples).  Other Python
types (floats, booleans, …) are outside the modelled fragment. -/
inductive PyVal where
  | int (n : Int)
  | str (s : String)
  | list (l : List PyVal)

/-- The Python exceptions that the embedded fragment can raise. -/
inductive PyErr where
  | indexError
  | keyError
  | valueError
  | typeError
deriving DecidableEq

mutual
/-- Python `repr` for the modelled values (used by `str` on a list). -/
def pyRepr : PyVal → String
  | .int n => toString n
  | .str s => squote ++ s ++ squote
  | .list l => "[" ++ String.intercalate ", " (pyReprList l) ++ "]"

/-- `repr` of each element of a Python list. -/
def pyReprList : List PyVal → List String
  | [] => []
  | v :: r => pyRepr v :: pyReprList r
end

/-- Python `str` for the modelled values. -/
def pyStr : PyVal → String
  | .int n => toString n
  | .str s => s
  | .list l => "[" ++ String.intercalate ", " (pyReprList l) ++ "]"

/-- Python truthiness of the modelled values. -/
def pyTruthy : PyVal → Bool
  | .int n => n != 0
  | .str s => s != ""
  | .list l => !l.isEmpty

/-- The numeric value of a list of decimal digits. -/
def digitsToNat (ds : List Char) : Nat :=
  ds.foldl (fun a c => a * 10 + (c.toNat - 48)) 0

/-- Whether a character list is a non-empty run of decimal digits. -/
def allDigits (ds : List Char) : Bool :=
  !ds.isEmpty && ds.all Char.isDigit

/-- Strip leading and trailing whitespace from a character list. -/
def trimChars (l : List Char) : List Char :=
  ((l.dropWhile Char.isWhitespace).reverse.dropWhile Char.isWhitespace).reverse

/-- Python `int(s)` on a string: strip whitespace, optional sign, digits. -/
def pyIntParse (s : String) : Option Int :=
  match trimChars s.toList with
  | '-' :: ds => if allDigits ds then some (-(digitsToNat ds : Int)) else none
  | '+' :: ds => if allDigits ds then some ((digitsToNat ds : Int)) else none
  | ds => if allDigits ds then some ((digitsToNat ds : Int)) else none

/-- `dict.get` on the kwargs dictionary (keys are unique in a Python dict, so
taking the first match is faithful). -/
def lookupKw (kwargs : List (String × PyVal)) (k : String) : Option PyVal :=
  (kwargs.find? (fun p => p.1 = k)).map (fun p => p.2)

/-! ### `SCPICmdFormatter` (`string.Formatter` subclass)

The base-class `vformat` loop of Python 2.7's `string.Formatter` is embedded
for the constructs the source exercises: literal text, `{{`/`}}` escapes, and
replacement fields `{name}` / `{name:spec}` whose name is empty, a positional
index, or a keyword.  Conversion specifiers (`!r`/`!s`), attribute/index
accessors inside field names and nested braces inside format specs are outside
the modelled fragment and parse to a `ValueError`-style failure. -/

/-- One parsed element of a format string: literal character or a replacement
field with its name and format spec (as produced by `Formatter.parse`). -/
inductive FmtToken where
  | lit (c : Char)
  | field (fname : String) (spec : String)
deriving DecidableEq

/-- Split a character list at the first occurrence of one of `stops`,
returning the consumed prefix and the remainder (which starts with the stop
character if one was found). -/
def splitUntil (stops : List Char) : List Char → List Char × List Char
  | [] => ([], [])
  | c :: r =>
    if c ∈ stops then ([], c :: r)
    else
      match splitUntil stops r with
      | (a, b) => (c :: a, b)

/-- `Formatter.parse`, fuelled: the fuel over-approximates the number of
iterations (every iteration consumes at least one input character, so
`length + 1` fuel never runs out). -/
def parseFmtFuel : Nat → List Char → Except PyErr (List FmtToken)
  | 0, _ => .error .valueError
  | _ + 1, [] => .ok []
  | fuel + 1, '{' :: '{' :: r => (parseFmtFuel fuel r).map (fun t => .lit '{' :: t)
  | fuel + 1, '}' :: '}' :: r => (parseFmtFuel fuel r).map (fun t => .lit '}' :: t)
  | fuel + 1, '{' :: r =>
    (match splitUntil [':', '}', '!', '{'] r with
     | (nm, '}' :: r2) => (parseFmtFuel fuel r2).map (fun t => .field (String.mk nm) "" :: t)
     | (nm, ':' :: r2) =>
       (match splitUntil ['}', '{'] r2 with
        | (sp, '}' :: r3) =>
          (parseFmtFuel fuel r3).map (fun t => .field (String.mk nm) (String.mk sp) :: t)
        | _ => .error .valueError)
     | _ => .error .valueError)
  | _ + 1, '}' :: _ => .error .valueError
  | fuel + 1, c :: r => (parseFmtFuel fuel r).map (fun t => .lit c :: t)

/-- `Formatter.parse` of a format string into tokens. -/
def parseFmt (l : List Char) : Except PyErr (List FmtToken) :=
  parseFmtFuel (l.length + 1) l

/-- The formatter state: `self.last_number`, the auto-numbering counter set to
`0` in `__init__`. -/
structure SCPICmdFormatter where
  last_number : Nat
deriving DecidableEq

/-- `SCPICmdFormatter()` — a fresh formatter instance. -/
def SCPICmdFormatter.new : SCPICmdFormatter := ⟨0⟩

/-- `SCPICmdFormatter.get_value`: an empty field name is replaced by
`self.last_number`, which is then incremented; the (possibly substituted) key
is looked up positionally if it is a number, otherwise in the kwargs. -/
def SCPICmdFormatter.get_value (f : SCPICmdFormatter) (key : String) (args : List PyVal)
    (kwargs : List (String × PyVal)) : Except PyErr PyVal × SCPICmdFormatter :=
  if key = "" then
    ((match args.get? f.last_number with
      | some v => .ok v
      | none => .error .indexError), { f with last_number := f.last_number + 1 })
  else if allDigits key.toList then
    ((match args.get? (digitsToNat key.toList) with
      | some v => .ok v
      | none => .error .indexError), f)
  else
    ((match lookupKw kwargs key with
      | some v => .ok v
      | none => .error .keyError), f)

/-- Python's builtin `format(value, format_spec)`, restricted to the spec
codes that `SCPICmdFormatter.format_field` can fall through with in the
modelled fragment: the empty spec (`str(value)`) and the plain `s` spec on a
string.  Everything else is outside the fragment and fails. -/
def defaultFormat (v : PyVal) (spec : List Char) : Except PyErr String :=
  if spec = [] then .ok (pyStr v)
  else if spec = ['s'] then
    match v with
    | .str s => .ok s
    | _ => .error .valueError
  else .error .valueError

/-- The elements Python iteration yields for a value used with the `*` spec
code: a list yields its elements, a string yields its characters, an integer
is not iterable. -/
def pyIterate : PyVal → Option (List PyVal)
  | .list l => some l
  | .str s => some (s.toList.map (fun ch => PyVal.str (String.singleton ch)))
  | .int _ => none

/-- `SCPICmdFormatter.format_field`, fuelled.  A trailing `*` maps the
recursion over the iterated value and joins with `", "`; a trailing `q`
replaces the `q` by `s`, recurses, and wraps the result in single quotes; a
trailing `s` coerces the value with `str()` and falls through to the default
formatting.  The fuel over-approximates the recursion depth (each `*` shortens
the spec, and a `q` step immediately reaches the terminal `s` branch). -/
def format_field_fuel : Nat → PyVal → List Char → Except PyErr String
  | 0, _, _ => .error .valueError
  | fuel + 1, v, spec =>
    match spec.getLast? with
    | none => defaultFormat v spec
    | some c =>
      if c = '*' then
        match pyIterate v with
        | some elems =>
          (elems.mapM (fun x => format_field_fuel fuel x spec.dropLast)).map
            (String.intercalate ", ")
        | none => .error .typeError
      else if c = 'q' then
        (format_field_fuel fuel v (spec.dropLast ++ ['s'])).map
          (fun r => squote ++ r ++ squote)
      else if c = 's' then
        defaultFormat (PyVal.str (pyStr v)) spec
      else
        defaultFormat v spec

/-- Sufficient fuel for `format_field_fuel` on a given spec. -/
def ffReq (spec : List Char) : Nat :=
  2 * spec.length + (if spec.getLast? = some 'q' then 2 else 1)

/-- `SCPICmdFormatter.format_field` (the method uses `self` only to recurse,
so it is modelled as a plain function on the spec's character list). -/
def format_field (v : PyVal) (spec : List Char) : Except PyErr String :=
  format_field_fuel (ffReq spec) v spec

/-- The field-processing loop of `string.Formatter._vformat`: literals are
copied, fields go through `get_value` and `format_field`; an exception aborts
the loop but keeps the formatter mutations made so far. -/
def vformatTokens (f : SCPICmdFormatter) (args : List PyVal)
    (kwargs : List (String × PyVal)) :
    List FmtToken → Except PyErr String × SCPICmdFormatter
  | [] => (.ok "", f)
  | .lit c :: r =>
    (match vformatTokens f args kwargs r with
     | (.ok s, f1) => (.ok (String.singleton c ++ s), f1)
     | (.error e, f1) => (.error e, f1))
  | .field nm sp :: r =>
    (match f.get_value nm args kwargs with
     | (.error e, f1) => (.error e, f1)
     | (.ok v, f1) =>
       (match format_field v sp.toList with
        | .error e => (.error e, f1)
        | .ok s =>
          (match vformatTokens f1 args kwargs r with
           | (.ok rest, f2) => (.ok (s ++ rest), f2)
           | (.error e, f2) => (.error e, f2))))

/-- The base-class `string.Formatter.vformat`: parse, then process tokens. -/
def vformatBase (f : SCPICmdFormatter) (fmt : String) (args : List PyVal)
    (kwargs : List (String × PyVal)) : Except PyErr String × SCPICmdFormatter :=
  match parseFmt fmt.toList with
  | .error e => (.error e, f)
  | .ok toks => vformatTokens f args kwargs toks

/-- `SCPICmdFormatter.vformat`: run the base-class `vformat`, then set
`self.last_number = 0`.  The reset is the statement after the `super()` call,
so it happens only when the base call returns without raising. -/
def SCPICmdFormatter.vformat (f : SCPICmdFormatter) (fmt : String) (args : List PyVal)
    (kwargs : List (String × PyVal)) : Except PyErr String × SCPICmdFormatter :=
  match vformatBase f fmt args kwargs with
  | (.ok r, f1) => (.ok r, { f1 with last_number := 0 })
  | (.error e, f1) => (.error e, f1)

/-! ### `LimitedCapacityDict` (`OrderedDict` subclass)

The `OrderedDict` is modelled as an insertion-ordered association list with
unique keys (oldest entry first), plus the `_max_len` attribute.  Note the
Python truthiness in `_check_len`: a `_max_len` of `None` *or `0`* disables
trimming entirely. -/

/-- `LimitedCapacityDict`: `_max_len` (`None` or an integer) and the ordered
entries, oldest first. -/
structure LimitedCapacityDict (K V : Type) where
  max_len : Option Nat
  entries : List (K × V)
deriving DecidableEq

/-- `len(self)`. -/
def LimitedCapacityDict.size {K V : Type} (d : LimitedCapacityDict K V) : Nat :=
  d.entries.length

/-- `_check_len`: if `self._max_len` is truthy (not `None`, not `0`) and
smaller than the current length, delete the `len(self) - self._max_len`
oldest keys. -/
def LimitedCapacityDict.check_len {K V : Type} (d : LimitedCapacityDict K V) :
    LimitedCapacityDict K V :=
  match d.max_len with
  | none => d
  | some m =>
    if m ≠ 0 ∧ m < d.entries.length then
      { d with entries := d.entries.drop (d.entries.length - m) }
    else d

/-- `key in self`. -/
def LimitedCapacityDict.containsKey {K V : Type} [DecidableEq K]
    (d : LimitedCapacityDict K V) (k : K) : Bool :=
  d.entries.any (fun p => p.1 = k)

/-- `__setitem__`: if the key is present, delete it (moving the element to the
end), insert at the end, then `_check_len`. -/
def LimitedCapacityDict.setItem {K V : Type} [DecidableEq K]
    (d : LimitedCapacityDict K V) (k : K) (v : V) : LimitedCapacityDict K V :=
  let d1 := if d.containsKey k
    then { d with entries := d.entries.eraseP (fun p => p.1 = k) }
    else d
  LimitedCapacityDict.check_len { d1 with entries := d1.entries ++ [(k, v)] }

/-- `dict.get(key)`: the stored value, or `None` when absent. -/
def LimitedCapacityDict.get {K V : Type} [DecidableEq K]
    (d : LimitedCapacityDict K V) (k : K) : Option V :=
  (d.entries.find? (fun p => p.1 = k)).map (fun p => p.2)

/-- The `max_len` property setter: store the new value, then `_check_len`. -/
def LimitedCapacityDict.set_max_len {K V : Type} (d : LimitedCapacityDict K V)
    (m : Option Nat) : LimitedCapacityDict K V :=
  LimitedCapacityDict.check_len { d with max_len := m }

/-- The operations a client can perform on the bounded debug history:
an insert, or a change of the configured capacity. -/
inductive HistOp (K V : Type) where
  | put (k : K) (v : V)
  | setCap (m : Option Nat)

/-- Apply one history operation. -/
def applyHistOp {K V : Type} [DecidableEq K] (d : LimitedCapacityDict K V) :
    HistOp K V → LimitedCapacityDict K V
  | .put k v => d.setItem k v
  | .setCap m => d.set_max_len m

/-! ### The device error-queue response parser

`_get_error_queue` runs
`re.finditer(r'(-?\d+),"(.*?([A-Z]{3}.*?)?(?:\n.*?)?)"', str(err))`.
The regex engine's leftmost, lazy, backtracking search is embedded directly:

* `.` never matches a newline, so the lazy `.*?` pieces scan over
  non-newline characters only, shortest first;
* the optional groups are greedy (`(...)?` tries to match one time first);
* the search order at each position of group 2's `.*?` is therefore: try
  group 3 (`[A-Z]{3}.*?`, lazily extended), then the optional
  `(?:\n.*?)` tail, then the closing quote, then extend the outer `.*?`.

`finditer` scans for the earliest match start and continues after each
match's end (every match consumes at least four characters). -/

/-- Whether a character is in the regex class `[A-Z]`. -/
def isUpperAZ (c : Char) : Bool := 'A' ≤ c && c ≤ 'Z'

/-- Lazy scan of `.*?"` after a newline: shortest run of non-newline
characters followed by the closing quote.  Returns the consumed run and the
remainder after the quote. -/
def scanToQuote : List Char → Option (List Char × List Char)
  | [] => none
  | '"' :: r => some ([], r)
  | '\n' :: _ => none
  | c :: r => (scanToQuote r).map (fun p => (c :: p.1, p.2))

/-- Match `(?:\n.*?)?"`: the optional group is tried first (it requires a
newline), otherwise the closing quote must follow immediately.  Returns the
characters consumed before the quote and the remainder after the quote. -/
def quoteTail : List Char → Option (List Char × List Char)
  | [] => none
  | '"' :: r => some ([], r)
  | '\n' :: r => (scanToQuote r).map (fun p => ('\n' :: p.1, p.2))
  | _ => none

/-- After the mandatory `[A-Z]{3}`, extend group 3's lazy `.*?` over
non-newline characters, trying `quoteTail` at each length (shortest first).
Returns (group 3 content, tail content, remainder after the quote). -/
def g3scan (acc : List Char) : List Char → Option (List Char × List Char × List Char)
  | [] => none
  | c :: r =>
    match quoteTail (c :: r) with
    | some (t, rest) => some (acc, t, rest)
    | none => if c ≠ '\n' then g3scan (acc ++ [c]) r else none

/-- Try the optional group 3 `([A-Z]{3}.*?)` at the current position. -/
def g3match : List Char → Option (List Char × List Char × List Char)
  | c1 :: c2 :: c3 :: r =>
    if isUpperAZ c1 && isUpperAZ c2 && isUpperAZ c3 then g3scan [c1, c2, c3] r
    else none
  | _ => none

/-- Match group 2 of the regex against the characters after the opening
quote: at each length of the outer lazy `.*?` (shortest first, non-newline
characters only) try group 3 first, then its absence.  Returns
(group 2 content, group 3 content if matched, remainder after the closing
quote). -/
def g2match : List Char → Option (List Char × Option (List Char) × List Char)
  | [] => none
  | c :: r =>
    match g3match (c :: r) with
    | some (g3, t, rest) => some (g3 ++ t, some g3, rest)
    | none =>
      match quoteTail (c :: r) with
      | some (t, rest) => some (t, none, rest)
      | none =>
        if c ≠ '\n' then (g2match r).map (fun p => (c :: p.1, p.2.1, p.2.2))
        else none

/-- Take the maximal leading run of decimal digits. -/
def takeDigits : List Char → List Char × List Char
  | [] => ([], [])
  | c :: r =>
    if c.isDigit then
      match takeDigits r with
      | (a, b) => (c :: a, b)
    else ([], c :: r)

/-- One `(code, group 2, group 3)` record extracted from the device
response. -/
structure ErrRecord where
  code : Int
  g2 : List Char
  g3 : Option (List Char)
deriving DecidableEq

/-- Try to match the whole regex at the current position:
`-?` then `\d+` (a maximal digit run — a shorter run would have to be
followed by a comma where a digit stands, so maximality is faithful), then
`,"` and group 2. -/
def matchRecord (cs : List Char) : Option (ErrRecord × List Char) :=
  let signedTail :=
    match cs with
    | '-' :: r =>
      (match r with
       | c :: _ => if c.isDigit then some r else none
       | [] => none)
    | _ => none
  let neg := signedTail.isSome
  let cs1 := signedTail.getD cs
  match takeDigits cs1 with
  | ([], _) => none
  | (ds, rest) =>
    match rest with
    | ',' :: '"' :: body =>
      (match g2match body with
       | some (g2, g3, rest2) =>
         some ({ code := if neg then -(digitsToNat ds : Int) else (digitsToNat ds : Int),
                 g2 := g2, g3 := g3 }, rest2)
       | none => none)
    | _ => none

/-- `re.finditer`, fuelled: scan for the earliest match start, emit the
record, continue after the match end.  Every iteration consumes at least one
character, so fuel `length + 1` never runs out. -/
def findRecordsFuel : Nat → List Char → List ErrRecord
  | 0, _ => []
  | _ + 1, [] => []
  | fuel + 1, c :: r =>
    match matchRecord (c :: r) with
    | some (rec, rest) => rec :: findRecordsFuel fuel rest
    | none => findRecordsFuel fuel r

/-- All `(code, message, offending-command)` records the regex extracts from
a device error-queue response. -/
def findRecords (cs : List Char) : List ErrRecord :=
  findRecordsFuel (cs.length + 1) cs

/-! ### The `Instrument` class -/

/-- A captured caller stack trace (`traceback.extract_stack()[:-2]`), as an
abstract list of frame descriptions. -/
abbrev Stack := List String

/-- `InstrumentError`: SCPI error number, message, and the optional stack
trace of the command believed to have caused it. -/
structure InstrumentError where
  err_no : Int
  err_str : String
  stack : Option Stack
deriving DecidableEq

/-- `VISAEvent`: duration since the previous command, status byte, and the
event status register (the raw `*ESR?` response string, or the Python int `0`
when bit 5 was not set — the source stores whichever it has). -/
structure VISAEvent where
  duration : Nat
  stb : Nat
  esr : PyVal

/-- Modelled from the spec: the `SCPIResponse` class is imported from
`RSSscpi.gen.SCPI_gen_support`, which is not among the provided sources.  Per
the spec the dispatcher on success "wrap[s] the raw response", so it is
modelled as a wrapper around the raw response text whose string form
(`str(err)` in `_get_error_queue`) is that text. -/
structure SCPIResponse where
  raw : String
deriving DecidableEq

/-- A command node of the domain object model (external collaborator): it can
produce its mnemonic text (`build_cmd()`) and report the set of accepted
argument literals (`cmd.args`). -/
structure SCPICmd where
  mnemonic : String
  arg_literals : List String

/-- What the transport's `visa_res.write`/`visa_res.query` call does: return
a response, or raise `visa.VisaIOError` (`tmo = true` for
`VI_ERROR_TMO`). -/
inductive VisaResult where
  | ok (resp : String)
  | err (tmo : Bool)
deriving DecidableEq

/-- The exceptions an `Instrument` operation can raise. -/
inductive Exc where
  | instr (e : InstrumentError)
  | visaErr (tmo : Bool)
  | py (e : PyErr)
deriving DecidableEq

/-- The `Instrument` state.  `visa_locked` / `in_callback_held` model the two
`threading.Lock`s; `cnt_log` is ghost instrumentation recording, for every
`command_cnt` increment (and the adjacent `_cmd_debug` insertion) performed by
`_call_visa`, the command text and whether `_visa_lock` was held. -/
structure Instrument where
  command_cnt : Nat
  last_cmd_time : Nat
  exception_on_error : Bool
  cmd_debug : LimitedCapacityDict String Stack
  event_queue : List VISAEvent
  error_queue : List InstrumentError
  visa_locked : Bool
  in_callback_held : Bool
  cnt_log : List (String × Bool)

/-- `Instrument.__init__`: counter 0, `exception_on_error = True`, empty
queues, debug history with `max_len=500`, locks free. -/
def Instrument.fresh : Instrument :=
  { command_cnt := 0, last_cmd_time := 0, exception_on_error := true,
    cmd_debug := { max_len := some 500, entries := [] },
    event_queue := [], error_queue := [],
    visa_locked := false, in_callback_held := false, cnt_log := [] }

/-- `check_error_queue`: if the error queue is non-empty, raising is enabled,
and `self._in_callback.acquire(False)` succeeds (i.e. the callback-guard lock
is not held), pop the oldest queued error and raise it. -/
def Instrument.check_error_queue (s : Instrument) : Except Exc Unit × Instrument :=
  if !s.error_queue.isEmpty && s.exception_on_error && !s.in_callback_held then
    match s.error_queue with
    | e :: rest => (.error (.instr e), { s with error_queue := rest })
    | [] => (.ok (), s)
  else (.ok (), s)

/-- `_call_visa(func, arg)`: run the queued-error check, increment
`command_cnt`, store the caller's stack in `_cmd_debug[arg]`, then perform the
transport call; `finally` updates `last_cmd_time` (the log sink is a no-op
with `logger = None`).  A `visa.Error` is re-raised after being printed. -/
def Instrument._call_visa (s : Instrument) (arg : String) (stack : Stack)
    (res : VisaResult) (now : Nat) : Except Exc String × Instrument :=
  match s.check_error_queue with
  | (.error e, s1) => (.error e, s1)
  | (.ok _, s1) =>
    let s2 := { s1 with
      command_cnt := s1.command_cnt + 1,
      cnt_log := s1.cnt_log ++ [(arg, s1.visa_locked)],
      cmd_debug := s1.cmd_debug.setItem arg stack }
    match res with
    | .ok r => (.ok r, { s2 with last_cmd_time := now })
    | .err tmo => (.error (.visaErr tmo), { s2 with last_cmd_time := now })

/-- `_build_arg_str(cmd, args, kwargs)` (static): pick the explicit `fmt`
from kwargs if truthy, otherwise wrap the positional arguments into a single
tuple and choose `"{:q*}"` when quoting is requested (kwarg `quote` truthy or
`"'string'"` among the command's accepted literals) else `"{:s*}"`; format
with a fresh `SCPICmdFormatter`. -/
def Instrument._build_arg_str (cmd : SCPICmd) (args : List PyVal)
    (kwargs : List (String × PyVal)) : Except PyErr String :=
  let fmtv := lookupKw kwargs "fmt"
  let fmtTruthy := match fmtv with
    | some v => pyTruthy v
    | none => false
  if fmtTruthy then
    match fmtv with
    | some (.str f) => (SCPICmdFormatter.new.vformat f args kwargs).1
    | _ => .error .typeError
  else
    let quoteFlag :=
      (match lookupKw kwargs "quote" with
       | some q => pyTruthy q
       | none => false) || cmd.arg_literals.contains (squote ++ "string" ++ squote)
    let f := if quoteFlag then "\x7b:q*\x7d" else "\x7b:s*\x7d"
    (SCPICmdFormatter.new.vformat f [PyVal.list args] kwargs).1

/-- `_write(cmd_str)`: `_call_visa` with the transport's write primitive —
note: no lock is acquired here. -/
def Instrument._write (s : Instrument) (cmd_str : String) (stack : Stack)
    (res : VisaResult) (now : Nat) : Except Exc Unit × Instrument :=
  match Instrument._call_visa s cmd_str stack res now with
  | (.ok _, s1) => (.ok (), s1)
  | (.error e, s1) => (.error e, s1)

/-- `write(cmd, *args, **kwargs)`: build the full command string (mnemonic,
space, formatted arguments), then under `_visa_lock` run `_call_visa` with the
transport's write primitive. -/
def Instrument.write (s : Instrument) (cmd : SCPICmd) (args : List PyVal)
    (kwargs : List (String × PyVal)) (stack : Stack) (res : VisaResult)
    (now : Nat) : Except Exc Unit × Instrument :=
  match Instrument._build_arg_str cmd args kwargs with
  | .error e => (.error (.py e), s)
  | .ok argstr =>
    let x := cmd.mnemonic ++ " " ++ argstr
    let s1 := { s with visa_locked := true }
    match Instrument._call_visa s1 x stack res now with
    | (.ok _, s2) => (.ok (), { s2 with visa_locked := false })
    | (.error e, s2) => (.error e, { s2 with visa_locked := false })

/-- `_query(cmd_str)`: `_call_visa` with the transport's query primitive,
wrapping a successful response — no lock, no timeout handling. -/
def Instrument._query (s : Instrument) (cmd_str : String) (stack : Stack)
    (res : VisaResult) (now : Nat) : Except Exc SCPIResponse × Instrument :=
  match Instrument._call_visa s cmd_str stack res now with
  | (.ok r, s1) => (.ok ⟨r⟩, s1)
  | (.error e, s1) => (.error e, s1)

/-- The literal `timeout=1` (seconds) of `error_queue.get(timeout=1)` in
`query`'s timeout handler. -/
def query_error_wait_timeout : Nat := 1

/-- `query(cmd, *args, **kwargs)`: build the full query string (mnemonic,
`"? "`, formatted arguments), then under `_visa_lock` run `_call_visa` with
the transport's query primitive and wrap the response.  If the transport
raises a `visa.VisaIOError` whose code is `VI_ERROR_TMO` and raising is
enabled, wait up to `query_error_wait_timeout` seconds on the error queue:
raise the queued/arriving `InstrumentError` if one is obtained, otherwise
re-raise the timeout.  `late` is the oracle for an error arriving from the
callback thread during that bounded wait when the queue is empty. -/
def Instrument.query (s : Instrument) (cmd : SCPICmd) (args : List PyVal)
    (kwargs : List (String × PyVal)) (stack : Stack) (res : VisaResult)
    (late : Option InstrumentError) (now : Nat) :
    Except Exc SCPIResponse × Instrument :=
  match Instrument._build_arg_str cmd args kwargs with
  | .error e => (.error (.py e), s)
  | .ok argstr =>
    let x := cmd.mnemonic ++ "? " ++ argstr
    let s1 := { s with visa_locked := true }
    match Instrument._call_visa s1 x stack res now with
    | (.ok r, s2) => (.ok ⟨r⟩, { s2 with visa_locked := false })
    | (.error e, s2) =>
      let s3 := { s2 with visa_locked := false }
      match e with
      | .visaErr true =>
        if s3.exception_on_error then
          match s3.error_queue with
          | errFront :: rest => (.error (.instr errFront), { s3 with error_queue := rest })
          | [] =>
            match late with
            | some errLate => (.error (.instr errLate), s3)
            | none => (.error (.visaErr true), s3)
        else (.error (.visaErr true), s3)
      | other => (.error other, s3)

/-- The loop body of `_get_error_queue`: for one parsed record, replace the
newlines of group 2 by spaces, look the extracted mnemonic (group 3, when
present) up in `_cmd_debug`, and `put_nowait` the resulting `InstrumentError`
onto the error queue. -/
def Instrument.push_parsed_error (st : Instrument) (r : ErrRecord) : Instrument :=
  { st with error_queue := st.error_queue ++
      [⟨r.code, String.mk (r.g2.map (fun c => if c = '\n' then ' ' else c)),
        (r.g3.map String.mk).bind (fun b => st.cmd_debug.get b)⟩] }

/-- `_get_error_queue`: query `SYSTem:ERRor:ALL?`, run the regex over the
response text, and for each record push an `InstrumentError` whose stack is
the debug-history entry for the extracted offending mnemonic (absent when the
mnemonic is missing or unknown); if no record matched, push the single
fallback `InstrumentError(-1, str(err), None)`. -/
def Instrument._get_error_queue (s : Instrument) (stack : Stack)
    (res : VisaResult) (now : Nat) : Except Exc Unit × Instrument :=
  match Instrument._query s "SYSTem:ERRor:ALL?" stack res now with
  | (.error e, s1) => (.error e, s1)
  | (.ok err, s1) =>
    let recs := findRecords err.raw.toList
    let s2 := recs.foldl Instrument.push_parsed_error s1
    if recs.isEmpty then
      (.ok (), { s2 with error_queue := s2.error_queue ++ [⟨-1, err.raw, none⟩] })
    else (.ok (), s2)

/-- `_service_request_handler`: invoked by the VISA library on its callback
thread.  `duration` is the elapsed wall-clock input; `stb` is what
`read_stb()` returns (a direct transport read, not routed through
`_call_visa`).  Under `_visa_lock` and `_in_callback`: read `*ESR?` through
`_call_visa` if status-byte bit 5 is set (the log line's `int(esr)` raises
`ValueError` on a non-numeric response); publish a `VISAEvent`; drain the
device error queue if bit 2 ("error queue not empty") is set.  Both locks are
released on every exit path (`with` blocks). -/
def Instrument._service_request_handler (s : Instrument) (duration : Nat)
    (stb : Nat) (esrRes : VisaResult) (drainRes : VisaResult) (stack : Stack)
    (now : Nat) : Except Exc Unit × Instrument :=
  let s1 := { s with visa_locked := true, in_callback_held := true }
  let release := fun (st : Instrument) =>
    { st with visa_locked := false, in_callback_held := false }
  let afterEsr := fun (st : Instrument) (esrVal : PyVal) =>
    let st1 := { st with event_queue := st.event_queue ++ [⟨duration, stb, esrVal⟩] }
    if stb &&& (1 <<< 2) ≠ 0 then
      match Instrument._get_error_queue st1 stack drainRes now with
      | (.ok _, st2) => (.ok (), release st2)
      | (.error e, st2) => (.error e, release st2)
    else (.ok (), release st1)
  if stb &&& 32 ≠ 0 then
    match Instrument._call_visa s1 "*ESR?" stack esrRes now with
    | (.error e, s2) => (.error e, release s2)
    | (.ok esrStr, s2) =>
      match pyIntParse esrStr with
      | none => (.error (.py .valueError), release s2)
      | some _ => afterEsr s2 (.str esrStr)
  else
    afterEsr s1 (.int 0)

/-- `init()`: send `*CLS;*ESE 127;*SRE 36` through `_write` (which takes no
lock), then install and enable the service-request handler (transport
registration with no modelled state effect). -/
def Instrument.init (s : Instrument) (stack : Stack) (res : VisaResult)
    (now : Nat) : Except Exc Unit × Instrument :=
  Instrument._write s "*CLS;*ESE 127;*SRE 36" stack res now

/-- One externally triggered operation on an `Instrument`, with its oracle
inputs. -/
inductive InstrOp where
  | write (cmd : SCPICmd) (args : List PyVal) (kwargs : List (String × PyVal))
      (stack : Stack) (res : VisaResult) (now : Nat)
  | query (cmd : SCPICmd) (args : List PyVal) (kwargs : List (String × PyVal))
      (stack : Stack) (res : VisaResult) (late : Option InstrumentError) (now : Nat)
  | initOp (stack : Stack) (res : VisaResult) (now : Nat)
  | srq (duration : Nat) (stb : Nat) (esrRes : VisaResult) (drainRes : VisaResult)
      (stack : Stack) (now : Nat)

/-- The state after one operation (the operation's result is discarded). -/
def stepOp (s : Instrument) : InstrOp → Instrument
  | .write cmd args kwargs stack res now => (s.write cmd args kwargs stack res now).2
  | .query cmd args kwargs stack res late now =>
      (s.query cmd args kwargs stack res late now).2
  | .initOp stack res now => (s.init stack res now).2
  | .srq duration stb esrRes drainRes stack now =>
      (s._service_request_handler duration stb esrRes drainRes stack now).2

/-- A sequence of `put` operations on the bounded debug history. -/
def putAll {K V : Type} [DecidableEq K] (d : LimitedCapacityDict K V)
    (ps : List (K × V)) : LimitedCapacityDict K V :=
  ps.foldl (fun st p => st.setItem p.1 p.2) d

/-! ### The end-to-end correlation scenario

A mock transport: two commands are issued and succeed; on the second one the
instrument raises a service request whose status byte has only the
"error queue not empty" bit (bit 2) set, and draining the device error queue
returns `-113,"Undefined header"`; afterwards one more `write` is issued. -/

/-- First issued command. -/
def c1_cmdA : SCPICmd := ⟨"*RST", []⟩

/-- Second issued command (the one believed to cause the device fault). -/
def c1_cmdB : SCPICmd := ⟨"FREQuency:STARt", []⟩

/-- The command issued after the fault was queued. -/
def c1_probe : SCPICmd := ⟨"*IDN", []⟩

/-- The caller's stack trace in the scenario. -/
def c1_stack : Stack := ["frame_caller"]

/-- State after the two successful writes. -/
def c1_after_writes : Instrument :=
  (((Instrument.fresh.write c1_cmdA [] [] c1_stack (.ok "") 1).2).write
    c1_cmdB [] [] c1_stack (.ok "") 2).2

/-- The service-request handler run triggered on the second command:
status byte `4` (only the error-queue bit), drained response
`-113,"Undefined header"`. -/
def c1_handler_run : Except Exc Unit × Instrument :=
  c1_after_writes._service_request_handler 5 4 (.ok "0")
    (.ok "-113,\"Undefined header\"") ["frame_callback"] 3

/-- State after the handler has drained and published the device fault. -/
def c1_after_handler : Instrument := c1_handler_run.2

/-! ## Theorems -/

/-- `List.mapM` into `Except` only depends on the function's values on the
list's elements. -/
theorem mapM_except_congr {α β ε : Type} (l : List α) (f g : α → Except ε β)
    (h : ∀ x ∈ l, f x = g x) : l.mapM f = l.mapM g := by
  induction l with
  | nil => rfl
  | cons x xs ih =>
    simp only [List.mapM_cons]
    rw [h x (by simp), ih (fun y hy => h y (by simp [hy]))]

/-- `format_field_fuel` is independent of the fuel once the fuel is at least
`ffReq` of the spec. -/
theorem format_field_fuel_stable (f1 : Nat) :
    ∀ (v : PyVal) (spec : List Char) (f2 : Nat),
      ffReq spec ≤ f1 → ffReq spec ≤ f2 →
      format_field_fuel f1 v spec = format_field_fuel f2 v spec := by
  induction f1 using Nat.strong_induction_on with
  | _ f1 ih =>
    intro v spec f2 h1 h2
    have hreq1 : 1 ≤ ffReq spec := by
      unfold ffReq; split <;> omega
    obtain ⟨a, rfl⟩ : ∃ a, f1 = a + 1 := ⟨f1 - 1, by omega⟩
    obtain ⟨b, rfl⟩ : ∃ b, f2 = b + 1 := ⟨f2 - 1, by omega⟩
    simp only [format_field_fuel]
    cases hlast : spec.getLast? with
    | none => rfl
    | some c =>
      have hne : spec ≠ [] := by
        intro hcon; subst hcon; simp [List.getLast?] at hlast
      have hlen : 1 ≤ spec.length := List.length_pos.mpr hne
      have hdrop : spec.dropLast.length = spec.length - 1 := by
        simp [List.length_dropLast]
      by_cases hstar : c = '*'
      · subst hstar
        have hflag : ffReq spec = 2 * spec.length + 1 := by
          unfold ffReq; rw [hlast]; simp
        rw [hflag] at h1 h2
        cases hv : pyIterate v with
        | none => simp
        | some elems =>
          have harg1 : ffReq spec.dropLast ≤ a := by
            unfold ffReq; split <;> omega
          have harg2 : ffReq spec.dropLast ≤ b := by
            unfold ffReq; split <;> omega
          have hmap := mapM_except_congr elems
            (fun x => format_field_fuel a x spec.dropLast)
            (fun x => format_field_fuel b x spec.dropLast)
            (fun x _ => ih a (by omega) x spec.dropLast b harg1 harg2)
          have hmap2 : List.mapM.loop (fun x => format_field_fuel a x spec.dropLast) elems []
              = List.mapM.loop (fun x => format_field_fuel b x spec.dropLast) elems [] := hmap
          simp [hmap2]
      · by_cases hq : c = 'q'
        · subst hq
          have hflag : ffReq spec = 2 * spec.length + 2 := by
            unfold ffReq; rw [hlast]; simp
          rw [hflag] at h1 h2
          have hlast2 : (spec.dropLast ++ ['s']).getLast? = some 's' :=
            List.getLast?_concat _
          have hlen2 : (spec.dropLast ++ ['s']).length = spec.length := by
            simp [hdrop]; omega
          have harg1 : ffReq (spec.dropLast ++ ['s']) ≤ a := by
            unfold ffReq; rw [hlast2, hlen2]; simp; omega
          have harg2 : ffReq (spec.dropLast ++ ['s']) ≤ b := by
            unfold ffReq; rw [hlast2, hlen2]; simp; omega
          have hih := ih a (by omega) v (spec.dropLast ++ ['s']) b harg1 harg2
          simp [if_neg hstar, hih]
        · by_cases hs : c = 's'
          · subst hs; simp [if_neg hstar]
          · simp [if_neg hstar, if_neg hq, if_neg hs]

/-- One-step unfolding of `format_field_fuel` at positive fuel. -/
theorem format_field_fuel_succ (fuel : Nat) (v : PyVal) (spec : List Char) :
    format_field_fuel (fuel + 1) v spec =
      match spec.getLast? with
      | none => defaultFormat v spec
      | some c =>
        if c = '*' then
          match pyIterate v with
          | some elems =>
            (elems.mapM (fun x => format_field_fuel fuel x spec.dropLast)).map
              (String.intercalate ", ")
          | none => .error .typeError
        else if c = 'q' then
          (format_field_fuel fuel v (spec.dropLast ++ ['s'])).map
            (fun r => squote ++ r ++ squote)
        else if c = 's' then
          defaultFormat (PyVal.str (pyStr v)) spec
        else
          defaultFormat v spec := rfl

/-- C8.  Formatter spec codes: a trailing `*` treats the value as an ordered
sequence and recursively formats each element with the same spec minus the
trailing `*`, joining the results with `", "`; a trailing `q` formats the
value (with the trailing code replaced by `s`) and wraps the result in single
quotes; a trailing `s` coerces the value to its string representation before
the default formatting rule; and concretely
`format("{:s*}", ([1,2,3],)) == "1, 2, 3"`, `format("{:q}", ("abc",)) ==
"'abc'"`, and `format("{}, {}", (1, 2)) == "1, 2"`. -/
theorem C8_theorem :
    (∀ (l : List PyVal) (spec : List Char),
       format_field (.list l) (spec ++ ['*'])
         = (l.mapM (fun x => format_field x spec)).map (String.intercalate ", "))
  ∧ (∀ (v : PyVal) (spec : List Char),
       format_field v (spec ++ ['q'])
         = (format_field v (spec ++ ['s'])).map (fun r => squote ++ r ++ squote))
  ∧ (∀ (v : PyVal) (spec : List Char),
       format_field v (spec ++ ['s'])
         = defaultFormat (PyVal.str (pyStr v)) (spec ++ ['s']))
  ∧ (SCPICmdFormatter.new.vformat "\x7b:s*\x7d"
       [PyVal.list [.int 1, .int 2, .int 3]] []).1 = .ok "1, 2, 3"
  ∧ (SCPICmdFormatter.new.vformat "\x7b:q\x7d" [.str "abc"] []).1
      = .ok (squote ++ "abc" ++ squote)
  ∧ (SCPICmdFormatter.new.vformat "\x7b\x7d, \x7b\x7d" [.int 1, .int 2] []).1
      = .ok "1, 2" := by
  refine ⟨?_, ?_, ?_, by decide, by decide, by decide⟩
  · intro l spec
    have hlast : (spec ++ ['*']).getLast? = some '*' := List.getLast?_concat _
    have hdrop : (spec ++ ['*']).dropLast = spec := List.dropLast_concat
    have hreq : ffReq (spec ++ ['*']) = 2 * spec.length + 2 + 1 := by
      unfold ffReq; rw [hlast]; simp [List.length_append]; omega
    have hreqs : ffReq spec ≤ 2 * spec.length + 2 := by
      unfold ffReq; split <;> omega
    rw [format_field, hreq, format_field_fuel_succ]
    simp only [hlast, hdrop, pyIterate, reduceIte]
    rw [mapM_except_congr l _ (fun x => format_field x spec)
      (fun x _ => format_field_fuel_stable _ x spec _ hreqs (le_refl _))]
  · intro v spec
    have hlast : (spec ++ ['q']).getLast? = some 'q' := List.getLast?_concat _
    have hdrop : (spec ++ ['q']).dropLast = spec := List.dropLast_concat
    have hreq : ffReq (spec ++ ['q']) = 2 * spec.length + 3 + 1 := by
      unfold ffReq; rw [hlast]; simp [List.length_append]; omega
    have hreqs : ffReq (spec ++ ['s']) = 2 * spec.length + 3 := by
      unfold ffReq; rw [List.getLast?_concat]; simp [List.length_append]; omega
    rw [format_field, hreq, format_field_fuel_succ]
    simp only [hlast, hdrop, reduceIte]
    rw [format_field, hreqs]
    rw [if_neg (show ¬ ('q' : Char) = '*' by decide)]
  · intro v spec
    have hlast : (spec ++ ['s']).getLast? = some 's' := List.getLast?_concat _
    have hreq : ffReq (spec ++ ['s']) = 2 * spec.length + 2 + 1 := by
      unfold ffReq; rw [hlast]; simp [List.length_append]; omega
    rw [format_field, hreq, format_field_fuel_succ]
    simp only [hlast, reduceIte]
    rw [if_neg (show ¬ ('s' : Char) = '*' by decide),
      if_neg (show ¬ ('s' : Char) = 'q' by decide)]

/-- C7 (counterexample).  The auto-number counter is *not* reset at the start
of a formatting call: it is reset at the end, and only when the call returns
without raising.  After a first call that fails (a `"{}"` template with no
arguments raises `IndexError` *after* `get_value` has already incremented
`last_number`), the same formatter instance starts its next call with
`last_number = 1`, so that call fails even though its argument exists — while
the identical call on a fresh instance succeeds.  This falsifies "for every
two sequential formatting calls on the same formatter instance, each call
starts its auto-numbering at 0". -/
theorem C7_counterexample :
    ((SCPICmdFormatter.new.vformat "\x7b\x7d" [] []).2.last_number = 1)
  ∧ ¬ ((SCPICmdFormatter.new.vformat "\x7b\x7d" [] []).2.last_number = 0)
  ∧ (((SCPICmdFormatter.new.vformat "\x7b\x7d" [] []).2.vformat
        "\x7b\x7d" [.int 5] []).1 = .error .indexError)
  ∧ ((SCPICmdFormatter.new.vformat "\x7b\x7d" [.int 5] []).1 = .ok "5") := by
  decide

/-- C7 (amended).  A field with an empty name is bound to the next unused
positional index (a fresh instance starts at 0 and two empty fields consume
indices 0 and 1 in order), and the auto-number counter is reset to zero at
the end of every formatting call that completes without error — so that for
every two sequential formatting calls on the same formatter instance in which
the first call succeeds, each call starts its auto-numbering at 0. -/
theorem C7_amended_theorem :
    (SCPICmdFormatter.new.last_number = 0)
  ∧ (∀ (f : SCPICmdFormatter) (fmt : String) (args : List PyVal)
       (kwargs : List (String × PyVal)) (r : String) (f1 : SCPICmdFormatter),
       f.vformat fmt args kwargs = (.ok r, f1) → f1.last_number = 0)
  ∧ (∀ (a b : PyVal),
       (SCPICmdFormatter.new.vformat "\x7b\x7d \x7b\x7d" [a, b] []).1
         = .ok (pyStr a ++ " " ++ pyStr b)
     ∧ (SCPICmdFormatter.new.vformat "\x7b\x7d \x7b\x7d" [a, b] []).2.last_number
         = 0) := by
  refine ⟨rfl, ?_, ?_⟩
  · intro f fmt args kwargs r f1 h
    unfold SCPICmdFormatter.vformat at h
    cases hb : vformatBase f fmt args kwargs with
    | _ res fx =>
      rw [hb] at h
      cases res with
      | ok s => simp at h; exact h.2.symm ▸ rfl
      | error e => simp at h
  · intro a b
    have hp : parseFmt ("\x7b\x7d \x7b\x7d").toList
        = .ok [.field "" "", .lit ' ', .field "" ""] := by decide
    have hff : ∀ v : PyVal, format_field v ([] : List Char) = .ok (pyStr v) := by
      intro v; rfl
    have hsp : String.singleton ' ' = " " := rfl
    constructor
    · unfold SCPICmdFormatter.vformat vformatBase
      rw [hp]
      unfold vformatTokens
      simp [SCPICmdFormatter.get_value, SCPICmdFormatter.new, hff, hsp, vformatTokens,
        String.append_assoc]
    · unfold SCPICmdFormatter.vformat vformatBase
      rw [hp]
      unfold vformatTokens
      simp [SCPICmdFormatter.get_value, SCPICmdFormatter.new, hff, hsp, vformatTokens]

/-- C7 (witness).  A concrete successful call: formatting `"{}"` with the
single argument `5` on a fresh instance yields `"5"` and leaves
`last_number = 0`. -/
theorem C7_witness :
    (SCPICmdFormatter.new.vformat "\x7b\x7d" [.int 5] []).2.last_number = 0 :=
  C7_amended_theorem.2.1 SCPICmdFormatter.new "\x7b\x7d" [.int 5] [] "5"
    (SCPICmdFormatter.new.vformat "\x7b\x7d" [.int 5] []).2 (by decide)

theorem lcd_containsKey_false {K V : Type} [DecidableEq K] (d : LimitedCapacityDict K V)
    (k : K) (h : k ∉ d.entries.map Prod.fst) : d.containsKey k = false := by
  unfold LimitedCapacityDict.containsKey
  rw [List.any_eq_false]
  intro p hp
  simp only [decide_eq_true_eq]
  intro hk
  exact h (List.mem_map.mpr ⟨p, hp, hk⟩)

theorem lcd_get_none {K V : Type} [DecidableEq K] (d : LimitedCapacityDict K V)
    (k : K) (h : k ∉ d.entries.map Prod.fst) : d.get k = none := by
  unfold LimitedCapacityDict.get
  rw [List.find?_eq_none.mpr]
  · rfl
  · intro p hp
    simp only [decide_eq_true_eq]
    intro hk
    exact h (List.mem_map.mpr ⟨p, hp, hk⟩)

theorem lcd_check_len_max_len {K V : Type} (d : LimitedCapacityDict K V) :
    d.check_len.max_len = d.max_len := by
  unfold LimitedCapacityDict.check_len
  cases hm : d.max_len with
  | none => exact hm
  | some m =>
    dsimp only
    split
    · rfl
    · exact hm

theorem lcd_setItem_max_len {K V : Type} [DecidableEq K] (d : LimitedCapacityDict K V)
    (k : K) (v : V) : (d.setItem k v).max_len = d.max_len := by
  unfold LimitedCapacityDict.setItem
  rw [lcd_check_len_max_len]
  dsimp only
  split <;> rfl

theorem putAll_max_len {K V : Type} [DecidableEq K] (d : LimitedCapacityDict K V)
    (ps : List (K × V)) : (putAll d ps).max_len = d.max_len := by
  induction ps generalizing d with
  | nil => rfl
  | cons p ps ih =>
    show (putAll (d.setItem p.1 p.2) ps).max_len = d.max_len
    rw [ih, lcd_setItem_max_len]

theorem putAll_append_singleton {K V : Type} [DecidableEq K]
    (d : LimitedCapacityDict K V) (ps : List (K × V)) (p : K × V) :
    putAll d (ps ++ [p]) = (putAll d ps).setItem p.1 p.2 := by
  unfold putAll
  rw [List.foldl_append]
  rfl

theorem putAll_entries {K V : Type} [DecidableEq K] (N : Nat) (hN : 1 ≤ N) :
    ∀ (ps : List (K × V)), (ps.map Prod.fst).Nodup →
      (putAll (⟨some N, []⟩ : LimitedCapacityDict K V) ps).entries
        = ps.drop (ps.length - N) := by
  intro ps
  induction ps using List.reverseRecOn with
  | nil => intro _; simp [putAll]
  | append_singleton ps p ih =>
    intro hnd
    have hmap : ((ps ++ [p]).map Prod.fst) = ps.map Prod.fst ++ [p.1] := by simp
    rw [hmap] at hnd
    have hnd1 : (ps.map Prod.fst).Nodup := (List.nodup_append.mp hnd).1
    have hdisj := (List.nodup_append.mp hnd).2.2
    have hnotin : p.1 ∉ ps.map Prod.fst := by
      intro hmem
      exact hdisj hmem (by simp)
    rw [putAll_append_singleton]
    set d := putAll (⟨some N, []⟩ : LimitedCapacityDict K V) ps with hd
    have hE : d.entries = ps.drop (ps.length - N) := ih hnd1
    have hEkeys : p.1 ∉ d.entries.map Prod.fst := by
      rw [hE]
      intro hmem
      rcases List.mem_map.mp hmem with ⟨q, hq, hq1⟩
      exact hnotin (List.mem_map.mpr ⟨q, List.mem_of_mem_drop hq, hq1⟩)
    have hml : d.max_len = some N := by rw [hd, putAll_max_len]
    have hcont := lcd_containsKey_false d p.1 hEkeys
    unfold LimitedCapacityDict.setItem
    simp only [hcont, Bool.false_eq_true, if_false]
    unfold LimitedCapacityDict.check_len
    rw [hml]
    dsimp only
    by_cases hc : ps.length < N
    · have hz : ps.length - N = 0 := by omega
      have hlenE : d.entries.length = ps.length := by
        rw [hE, List.length_drop]; omega
      rw [if_neg (by rw [List.length_append, hlenE]; simp; omega)]
      dsimp only
      rw [hE, hz, List.drop_zero]
      have hz2 : (ps ++ [p]).length - N = 0 := by
        rw [List.length_append]; simp; omega
      rw [hz2, List.drop_zero, Prod.mk.eta]
    · have hle : N ≤ ps.length := by omega
      have hlenE : d.entries.length = N := by
        rw [hE, List.length_drop]; omega
      have hcond : N ≠ 0 ∧ N < (d.entries ++ [(p.1, p.2)]).length := by
        rw [List.length_append, hlenE]
        exact ⟨by omega, by simp⟩
      rw [if_pos hcond]
      dsimp only
      rw [List.length_append, hlenE]
      simp only [List.length_cons, List.length_nil]
      have hidx : N + 1 - N = 1 := by omega
      rw [hidx, hE, Prod.mk.eta]
      rw [List.drop_append_of_le_length (by rw [List.length_drop]; omega)]
      rw [List.drop_drop]
      have hidx2 : (ps ++ [p]).length - N = ps.length + 1 - N := by
        rw [List.length_append]; simp
      rw [hidx2, List.drop_append_of_le_length (by omega)]
      congr 2
      omega

theorem find_key_of_mem {K V : Type} [DecidableEq K] :
    ∀ (l : List (K × V)) (k : K) (v : V), (l.map Prod.fst).Nodup → (k, v) ∈ l →
      l.find? (fun p => p.1 = k) = some (k, v)
  | [], k, v, _, hmem => by simp at hmem
  | x :: xs, k, v, hnd, hmem => by
    rcases List.mem_cons.mp hmem with hx | hxs
    · subst hx
      exact List.find?_cons_of_pos _ (by simp)
    · have hnd' : (xs.map Prod.fst).Nodup := by
        simp only [List.map_cons, List.nodup_cons] at hnd
        exact hnd.2
      have hne : ¬ (x.1 = k) := by
        intro he
        simp only [List.map_cons, List.nodup_cons] at hnd
        exact hnd.1 (he ▸ List.mem_map.mpr ⟨(k, v), hxs, rfl⟩)
      rw [List.find?_cons_of_neg _ (by simpa using hne)]
      exact find_key_of_mem xs k v hnd' hxs

theorem lcd_setItem_existing {K V : Type} [DecidableEq K] (d : LimitedCapacityDict K V)
    (k : K) (v : V)
    (hinv : ∀ m, d.max_len = some m → m ≠ 0 → d.size ≤ m)
    (hin : d.containsKey k = true) :
    (d.setItem k v).size = d.size
  ∧ (d.setItem k v).entries.getLast? = some (k, v) := by
  rcases List.any_eq_true.mp hin with ⟨p, hp, hpk⟩
  have hlen : (d.entries.eraseP (fun q => decide (q.1 = k))).length + 1
      = d.entries.length := List.length_eraseP_add_one hp hpk
  have hnewlen : ((d.entries.eraseP (fun q => decide (q.1 = k))) ++ [(k, v)]).length
      = d.entries.length := by
    rw [List.length_append]
    simp only [List.length_cons, List.length_nil]
    omega
  unfold LimitedCapacityDict.setItem
  rw [if_pos hin]
  unfold LimitedCapacityDict.check_len
  cases hm : d.max_len with
  | none =>
    refine ⟨?_, List.getLast?_concat _⟩
    show ((d.entries.eraseP (fun q => decide (q.1 = k))) ++ [(k, v)]).length = d.size
    unfold LimitedCapacityDict.size
    exact hnewlen
  | some m =>
    dsimp only
    rw [if_neg]
    · refine ⟨?_, List.getLast?_concat _⟩
      show ((d.entries.eraseP (fun q => decide (q.1 = k))) ++ [(k, v)]).length = d.size
      unfold LimitedCapacityDict.size
      exact hnewlen
    · rintro ⟨hm0, hlt⟩
      have hsz : d.size ≤ m := hinv m hm hm0
      unfold LimitedCapacityDict.size at hsz
      rw [hnewlen] at hlt
      omega

theorem lcd_check_len_size_le {K V : Type} (d : LimitedCapacityDict K V) (m : Nat)
    (hm1 : 1 ≤ m) (hm : d.max_len = some m) : d.check_len.size ≤ m := by
  unfold LimitedCapacityDict.check_len LimitedCapacityDict.size
  rw [hm]
  dsimp only
  split
  · show (d.entries.drop (d.entries.length - m)).length ≤ m
    rw [List.length_drop]
    omega
  · next hcond =>
    push_neg at hcond
    have := hcond (by omega)
    omega

theorem lcd_applyHistOp_size_le {K V : Type} [DecidableEq K] (d : LimitedCapacityDict K V)
    (op : HistOp K V) (m : Nat) (hm1 : 1 ≤ m)
    (hm : (applyHistOp d op).max_len = some m) : (applyHistOp d op).size ≤ m := by
  cases op with
  | put k v =>
    have hml : d.max_len = some m := by
      rw [← lcd_setItem_max_len d k v]
      exact hm
    show (LimitedCapacityDict.setItem d k v).size ≤ m
    unfold LimitedCapacityDict.setItem
    apply lcd_check_len_size_le _ m hm1
    dsimp only
    split <;> exact hml
  | setCap mm =>
    have hmm : mm = some m := by
      have h1 := lcd_check_len_max_len ({ d with max_len := mm } : LimitedCapacityDict K V)
      show _
      have : (LimitedCapacityDict.set_max_len d mm).max_len = some m := hm
      unfold LimitedCapacityDict.set_max_len at this
      rw [h1] at this
      exact this
    show (LimitedCapacityDict.set_max_len d mm).size ≤ m
    unfold LimitedCapacityDict.set_max_len
    apply lcd_check_len_size_le _ m hm1
    rw [hmm]

theorem lcd_foldl_size_le {K V : Type} [DecidableEq K] (N : Nat)
    (ops : List (HistOp K V)) (m : Nat) (hm1 : 1 ≤ m)
    (hm : (ops.foldl applyHistOp (⟨some N, []⟩ : LimitedCapacityDict K V)).max_len
      = some m) :
    (ops.foldl applyHistOp (⟨some N, []⟩ : LimitedCapacityDict K V)).size ≤ m := by
  induction ops using List.reverseRecOn with
  | nil => simp [LimitedCapacityDict.size]
  | append_singleton ops op ih =>
    simp only [List.foldl_append, List.foldl_cons, List.foldl_nil] at hm ⊢
    exact lcd_applyHistOp_size_le _ op m hm1 hm

/-- C5 (amended).  Bounded History eviction and re-insertion, for every
*positive* capacity `N` (the Python truthiness test in `_check_len` treats a
capacity of `0` like `None`, i.e. unbounded, which is what the counterexample
exhibits): for every sequence of distinct-key puts into an empty history of
capacity `N ≥ 1` the entries are exactly the last `min(length, N)` inserted
pairs, hence after `N` or fewer distinct inserts the size equals the number
of inserts; after `N + K` distinct inserts the size is `N`, the `K` oldest
keys are absent and the others retrievable; and re-inserting an existing key
(in any state respecting the capacity bound) keeps the size unchanged and
moves the key to the most-recently-inserted position. -/
theorem C5_amended_theorem :
    (∀ (N : Nat) (ps : List (String × Stack)), 1 ≤ N → (ps.map Prod.fst).Nodup →
       (putAll (⟨some N, []⟩ : LimitedCapacityDict String Stack) ps).entries
         = ps.drop (ps.length - N))
  ∧ (∀ (N : Nat) (ps : List (String × Stack)), 1 ≤ N → (ps.map Prod.fst).Nodup →
       ps.length ≤ N →
       (putAll (⟨some N, []⟩ : LimitedCapacityDict String Stack) ps).size = ps.length)
  ∧ (∀ (N kk : Nat) (ps : List (String × Stack)), 1 ≤ N → (ps.map Prod.fst).Nodup →
       ps.length = N + kk →
       (putAll (⟨some N, []⟩ : LimitedCapacityDict String Stack) ps).size = N
     ∧ (∀ p ∈ ps.take kk,
          (putAll (⟨some N, []⟩ : LimitedCapacityDict String Stack) ps).get p.1 = none)
     ∧ (∀ p ∈ ps.drop kk,
          (putAll (⟨some N, []⟩ : LimitedCapacityDict String Stack) ps).get p.1
            = some p.2))
  ∧ (∀ (d : LimitedCapacityDict String Stack) (k : String) (v : Stack),
       (∀ m, d.max_len = some m → m ≠ 0 → d.size ≤ m) →
       d.containsKey k = true →
       (d.setItem k v).size = d.size
     ∧ (d.setItem k v).entries.getLast? = some (k, v)) := by
  refine ⟨fun N ps hN hnd => putAll_entries N hN ps hnd, ?_, ?_,
    fun d k v hinv hin => lcd_setItem_existing d k v hinv hin⟩
  · intro N ps hN hnd hle
    unfold LimitedCapacityDict.size
    rw [putAll_entries N hN ps hnd, List.length_drop]
    omega
  · intro N kk ps hN hnd hlen
    have hE := putAll_entries N hN ps hnd
    have hkk : ps.length - N = kk := by omega
    rw [hkk] at hE
    refine ⟨?_, ?_, ?_⟩
    · unfold LimitedCapacityDict.size
      rw [hE, List.length_drop]
      omega
    · intro p hp
      apply lcd_get_none
      rw [hE]
      intro hmem
      rcases List.mem_map.mp hmem with ⟨q, hq, hq1⟩
      have h1 : p.1 ∈ (ps.map Prod.fst).take kk := by
        rw [← List.map_take]
        exact List.mem_map.mpr ⟨p, hp, rfl⟩
      have h2 : p.1 ∈ (ps.map Prod.fst).drop kk := by
        rw [← List.map_drop]
        exact List.mem_map.mpr ⟨q, hq, hq1⟩
      exact (List.disjoint_take_drop hnd (le_refl kk)) h1 h2
    · intro p hp
      have hnd' : ((ps.drop kk).map Prod.fst).Nodup := by
        rw [List.map_drop]
        exact (List.drop_sublist kk (ps.map Prod.fst)).nodup hnd
      unfold LimitedCapacityDict.get
      rw [hE, find_key_of_mem (ps.drop kk) p.1 p.2 hnd' (by rw [Prod.mk.eta]; exact hp)]
      rfl

/-- C5 (counterexample).  With capacity `N = 0` and `K = 1` distinct key
inserted, the claim says the size equals `N = 0`; but `_check_len`'s
truthiness test `if self._max_len` is false for `0`, so nothing is evicted
and the size is `1`. -/
theorem C5_counterexample :
    ((putAll (⟨some 0, []⟩ : LimitedCapacityDict String Stack) [("K1", [])]).size = 1)
  ∧ ¬ ((putAll (⟨some 0, []⟩ : LimitedCapacityDict String Stack) [("K1", [])]).size
        = 0) := by
  decide

/-- C5 (witness).  Capacity 2, three distinct keys: size 2, the oldest key
evicted, the newest retrievable. -/
theorem C5_witness :
    ((putAll (⟨some 2, []⟩ : LimitedCapacityDict String Stack)
        [("KA", []), ("KB", []), ("KC", [])]).size = 2)
  ∧ ((putAll (⟨some 2, []⟩ : LimitedCapacityDict String Stack)
        [("KA", []), ("KB", []), ("KC", [])]).get "KA" = none)
  ∧ ((putAll (⟨some 2, []⟩ : LimitedCapacityDict String Stack)
        [("KA", []), ("KB", []), ("KC", [])]).get "KC" = some []) := by
  have h3 := C5_amended_theorem.2.2.1 2 1 [("KA", []), ("KB", []), ("KC", [])]
    (by decide) (by decide) (by decide)
  exact ⟨h3.1, h3.2.1 ("KA", []) (by decide), h3.2.2 ("KC", []) (by decide)⟩

/-- C9 (amended).  History-size invariant for every *positive* configured
capacity: immediately after every insert or capacity change whose resulting
configured capacity is `some m` with `m ≥ 1`, the history size is at most
`m`; consequently the bound holds at all times along every operation sequence
starting from an empty history.  (A configured capacity of `0` is treated by
the code like `None` — unbounded — which is what the counterexample
exhibits.) -/
theorem C9_amended_theorem :
    (∀ (d : LimitedCapacityDict String Stack) (op : HistOp String Stack) (m : Nat),
       1 ≤ m → (applyHistOp d op).max_len = some m → (applyHistOp d op).size ≤ m)
  ∧ (∀ (N : Nat) (ops : List (HistOp String Stack)) (m : Nat), 1 ≤ m →
       (ops.foldl applyHistOp (⟨some N, []⟩ : LimitedCapacityDict String Stack)).max_len
         = some m →
       (ops.foldl applyHistOp (⟨some N, []⟩ : LimitedCapacityDict String Stack)).size
         ≤ m) :=
  ⟨fun d op m hm1 hm => lcd_applyHistOp_size_le d op m hm1 hm,
   fun N ops m hm1 hm => lcd_foldl_size_le N ops m hm1 hm⟩

/-- C9 (counterexample).  With configured capacity `0`, one insert leaves
size `1 > 0`: `_check_len`'s `if self._max_len` is false for `0`, so the
claimed bound "size ≤ configured capacity at all times" fails at capacity
`0`. -/
theorem C9_counterexample :
    ((applyHistOp (⟨some 0, []⟩ : LimitedCapacityDict String Stack)
        (.put "K1" [])).max_len = some 0)
  ∧ ¬ ((applyHistOp (⟨some 0, []⟩ : LimitedCapacityDict String Stack)
        (.put "K1" [])).size ≤ 0) := by
  decide

/-- C9 (witness).  One insert into an empty capacity-1 history keeps the
size within the bound. -/
theorem C9_witness :
    (applyHistOp (⟨some 1, []⟩ : LimitedCapacityDict String Stack)
      (.put "K1" [])).size ≤ 1 :=
  C9_amended_theorem.1 _ _ 1 (by decide) (by decide)

/-- Folding `push_parsed_error` over parsed records never touches the command
counter. -/
theorem push_parsed_foldl_cnt : ∀ (recs : List ErrRecord) (st : Instrument),
    (recs.foldl Instrument.push_parsed_error st).command_cnt = st.command_cnt
  | [], _ => rfl
  | r :: rs, st => by
    show (rs.foldl Instrument.push_parsed_error
      (Instrument.push_parsed_error st r)).command_cnt = st.command_cnt
    rw [push_parsed_foldl_cnt rs _]
    rfl

/-- Folding `push_parsed_error` never touches the ghost increment log. -/
theorem push_parsed_foldl_log : ∀ (recs : List ErrRecord) (st : Instrument),
    (recs.foldl Instrument.push_parsed_error st).cnt_log = st.cnt_log
  | [], _ => rfl
  | r :: rs, st => by
    show (rs.foldl Instrument.push_parsed_error
      (Instrument.push_parsed_error st r)).cnt_log = st.cnt_log
    rw [push_parsed_foldl_log rs _]
    rfl

/-- Folding `push_parsed_error` never touches the locks or the error-raising
flag. -/
theorem push_parsed_foldl_locks : ∀ (recs : List ErrRecord) (st : Instrument),
    (recs.foldl Instrument.push_parsed_error st).visa_locked = st.visa_locked
  ∧ (recs.foldl Instrument.push_parsed_error st).in_callback_held
      = st.in_callback_held
  ∧ (recs.foldl Instrument.push_parsed_error st).exception_on_error
      = st.exception_on_error
  | [], _ => ⟨rfl, rfl, rfl⟩
  | r :: rs, st => by
    show (rs.foldl Instrument.push_parsed_error
        (Instrument.push_parsed_error st r)).visa_locked = st.visa_locked ∧ _ ∧ _
    exact push_parsed_foldl_locks rs _

/-- `_call_visa` never decreases the command counter. -/
theorem call_visa_cnt_le (s : Instrument) (arg : String) (stack : Stack)
    (res : VisaResult) (now : Nat) :
    s.command_cnt ≤ (Instrument._call_visa s arg stack res now).2.command_cnt := by
  unfold Instrument._call_visa Instrument.check_error_queue
  by_cases hc : (!s.error_queue.isEmpty && s.exception_on_error && !s.in_callback_held)
      = true
  · rw [if_pos hc]
    cases hq : s.error_queue <;> rcases res <;> simp
  · rw [if_neg hc]
    rcases res <;> simp

/-- `_call_visa` leaves the IO-lock flag unchanged. -/
theorem call_visa_visa_locked (s : Instrument) (arg : String) (stack : Stack)
    (res : VisaResult) (now : Nat) :
    (Instrument._call_visa s arg stack res now).2.visa_locked = s.visa_locked := by
  unfold Instrument._call_visa Instrument.check_error_queue
  by_cases hc : (!s.error_queue.isEmpty && s.exception_on_error && !s.in_callback_held)
      = true
  · rw [if_pos hc]
    cases hq : s.error_queue <;> rcases res <;> simp
  · rw [if_neg hc]
    rcases res <;> simp

/-- `_call_visa` leaves the callback-guard flag unchanged. -/
theorem call_visa_in_callback (s : Instrument) (arg : String) (stack : Stack)
    (res : VisaResult) (now : Nat) :
    (Instrument._call_visa s arg stack res now).2.in_callback_held
      = s.in_callback_held := by
  unfold Instrument._call_visa Instrument.check_error_queue
  by_cases hc : (!s.error_queue.isEmpty && s.exception_on_error && !s.in_callback_held)
      = true
  · rw [if_pos hc]
    cases hq : s.error_queue <;> rcases res <;> simp
  · rw [if_neg hc]
    rcases res <;> simp

/-- `_call_visa` extends the ghost increment log by at most one entry, whose
lock flag is the IO-lock state at the call. -/
theorem call_visa_log (s : Instrument) (arg : String) (stack : Stack)
    (res : VisaResult) (now : Nat) :
    ∃ d, (Instrument._call_visa s arg stack res now).2.cnt_log = s.cnt_log ++ d
    ∧ ∀ p ∈ d, p.2 = s.visa_locked := by
  unfold Instrument._call_visa Instrument.check_error_queue
  by_cases hc : (!s.error_queue.isEmpty && s.exception_on_error && !s.in_callback_held)
      = true
  · rw [if_pos hc]
    cases hq : s.error_queue with
    | nil => rcases res <;> exact ⟨[(arg, s.visa_locked)], by simp⟩
    | cons e rest => rcases res <;> exact ⟨[], by simp⟩
  · rw [if_neg hc]
    rcases res <;> exact ⟨[(arg, s.visa_locked)], by simp⟩

/-- `call_visa_cnt_le` in the form of a match-equation hypothesis. -/
theorem call_visa_cnt_le2 {s : Instrument} {arg : String} {stack : Stack}
    {res : VisaResult} {now : Nat} {r : Except Exc String} {s2 : Instrument}
    (h : Instrument._call_visa s arg stack res now = (r, s2)) :
    s.command_cnt ≤ s2.command_cnt := by
  have h1 := call_visa_cnt_le s arg stack res now
  rw [h] at h1
  exact h1

/-- `call_visa_log` in the form of a match-equation hypothesis. -/
theorem call_visa_log2 {s : Instrument} {arg : String} {stack : Stack}
    {res : VisaResult} {now : Nat} {r : Except Exc String} {s2 : Instrument}
    (h : Instrument._call_visa s arg stack res now = (r, s2)) :
    ∃ d, s2.cnt_log = s.cnt_log ++ d ∧ ∀ p ∈ d, p.2 = s.visa_locked := by
  obtain ⟨d, hd, hdall⟩ := call_visa_log s arg stack res now
  rw [h] at hd
  exact ⟨d, hd, hdall⟩

/-- Lock preservation of `_call_visa`, match-equation form. -/
theorem call_visa_locks2 {s : Instrument} {arg : String} {stack : Stack}
    {res : VisaResult} {now : Nat} {r : Except Exc String} {s2 : Instrument}
    (h : Instrument._call_visa s arg stack res now = (r, s2)) :
    s2.visa_locked = s.visa_locked ∧ s2.in_callback_held = s.in_callback_held := by
  have h1 := call_visa_visa_locked s arg stack res now
  have h2 := call_visa_in_callback s arg stack res now
  rw [h] at h1 h2
  exact ⟨h1, h2⟩

/-- `_get_error_queue` never decreases the command counter. -/
theorem geq_cnt_le (s : Instrument) (stack : Stack) (res : VisaResult) (now : Nat) :
    s.command_cnt ≤ (Instrument._get_error_queue s stack res now).2.command_cnt := by
  unfold Instrument._get_error_queue Instrument._query
  have h1 := call_visa_cnt_le s "SYSTem:ERRor:ALL?" stack res now
  rcases hcv : Instrument._call_visa s "SYSTem:ERRor:ALL?" stack res now with ⟨cr, s1⟩
  rw [hcv] at h1
  cases cr with
  | error e => simpa using h1
  | ok r =>
    simp only
    split
    · simpa [push_parsed_foldl_cnt] using h1
    · simpa [push_parsed_foldl_cnt] using h1

/-- `_get_error_queue` extends the ghost increment log by entries whose lock
flag is the IO-lock state at the call. -/
theorem geq_log (s : Instrument) (stack : Stack) (res : VisaResult) (now : Nat) :
    ∃ d, (Instrument._get_error_queue s stack res now).2.cnt_log = s.cnt_log ++ d
    ∧ ∀ p ∈ d, p.2 = s.visa_locked := by
  unfold Instrument._get_error_queue Instrument._query
  obtain ⟨d, hd, hdall⟩ := call_visa_log s "SYSTem:ERRor:ALL?" stack res now
  rcases hcv : Instrument._call_visa s "SYSTem:ERRor:ALL?" stack res now with ⟨cr, s1⟩
  rw [hcv] at hd
  cases cr with
  | error e => exact ⟨d, by simpa using hd, hdall⟩
  | ok r =>
    simp only
    split
    · exact ⟨d, by simpa [push_parsed_foldl_log] using hd, hdall⟩
    · exact ⟨d, by simpa [push_parsed_foldl_log] using hd, hdall⟩

/-- `geq_cnt_le`, match-equation form. -/
theorem geq_cnt_le2 {s : Instrument} {stack : Stack} {res : VisaResult} {now : Nat}
    {r : Except Exc Unit} {s2 : Instrument}
    (h : Instrument._get_error_queue s stack res now = (r, s2)) :
    s.command_cnt ≤ s2.command_cnt := by
  have h1 := geq_cnt_le s stack res now
  rw [h] at h1
  exact h1

/-- `geq_log`, match-equation form. -/
theorem geq_log2 {s : Instrument} {stack : Stack} {res : VisaResult} {now : Nat}
    {r : Except Exc Unit} {s2 : Instrument}
    (h : Instrument._get_error_queue s stack res now = (r, s2)) :
    ∃ d, s2.cnt_log = s.cnt_log ++ d ∧ ∀ p ∈ d, p.2 = s.visa_locked := by
  obtain ⟨d, hd, hdall⟩ := geq_log s stack res now
  rw [h] at hd
  exact ⟨d, hd, hdall⟩

/-- `write` never decreases the command counter. -/
theorem write_cnt_le (s : Instrument) (cmd : SCPICmd) (args : List PyVal)
    (kwargs : List (String × PyVal)) (stack : Stack) (res : VisaResult) (now : Nat) :
    s.command_cnt ≤ (s.write cmd args kwargs stack res now).2.command_cnt := by
  unfold Instrument.write
  cases hb : Instrument._build_arg_str cmd args kwargs with
  | error pe => simp
  | ok argstr =>
    dsimp only
    have h1 := call_visa_cnt_le { s with visa_locked := true }
      (cmd.mnemonic ++ " " ++ argstr) stack res now
    rcases hcv : Instrument._call_visa { s with visa_locked := true }
        (cmd.mnemonic ++ " " ++ argstr) stack res now with ⟨cr, s1⟩
    rw [hcv] at h1
    cases cr <;> simpa using h1

/-- Every ghost-log entry added by `write` carries lock flag `true`. -/
theorem write_log (s : Instrument) (cmd : SCPICmd) (args : List PyVal)
    (kwargs : List (String × PyVal)) (stack : Stack) (res : VisaResult) (now : Nat) :
    ∃ d, (s.write cmd args kwargs stack res now).2.cnt_log = s.cnt_log ++ d
    ∧ ∀ p ∈ d, p.2 = true := by
  unfold Instrument.write
  cases hb : Instrument._build_arg_str cmd args kwargs with
  | error pe => exact ⟨[], by simp⟩
  | ok argstr =>
    dsimp only
    obtain ⟨d, hd, hdall⟩ := call_visa_log { s with visa_locked := true }
      (cmd.mnemonic ++ " " ++ argstr) stack res now
    rcases hcv : Instrument._call_visa { s with visa_locked := true }
        (cmd.mnemonic ++ " " ++ argstr) stack res now with ⟨cr, s1⟩
    rw [hcv] at hd
    cases cr <;> exact ⟨d, by simpa using hd, hdall⟩

/-- `query` never decreases the command counter. -/
theorem query_cnt_le (s : Instrument) (cmd : SCPICmd) (args : List PyVal)
    (kwargs : List (String × PyVal)) (stack : Stack) (res : VisaResult)
    (late : Option InstrumentError) (now : Nat) :
    s.command_cnt ≤ (s.query cmd args kwargs stack res late now).2.command_cnt := by
  unfold Instrument.query
  cases hb : Instrument._build_arg_str cmd args kwargs with
  | error pe => simp
  | ok argstr =>
    dsimp only
    have h1 := call_visa_cnt_le { s with visa_locked := true }
      (cmd.mnemonic ++ "? " ++ argstr) stack res now
    rcases hcv : Instrument._call_visa { s with visa_locked := true }
        (cmd.mnemonic ++ "? " ++ argstr) stack res now with ⟨cr, s1⟩
    rw [hcv] at h1
    cases cr with
    | ok r => simpa using h1
    | error e =>
      rcases e with ie | tmo | pe
      · simpa using h1
      · cases tmo
        · simpa using h1
        · simp only
          by_cases hex : s1.exception_on_error = true
          · rw [if_pos (by simpa using hex)]
            cases hq : s1.error_queue with
            | cons e2 r2 => simpa using h1
            | nil =>
              cases late with
              | some e3 => simpa using h1
              | none => simpa using h1
          · rw [if_neg (by simpa using hex)]
            simpa using h1
      · simpa using h1

/-- Every ghost-log entry added by `query` carries lock flag `true`. -/
theorem query_log (s : Instrument) (cmd : SCPICmd) (args : List PyVal)
    (kwargs : List (String × PyVal)) (stack : Stack) (res : VisaResult)
    (late : Option InstrumentError) (now : Nat) :
    ∃ d, (s.query cmd args kwargs stack res late now).2.cnt_log = s.cnt_log ++ d
    ∧ ∀ p ∈ d, p.2 = true := by
  unfold Instrument.query
  cases hb : Instrument._build_arg_str cmd args kwargs with
  | error pe => exact ⟨[], by simp⟩
  | ok argstr =>
    dsimp only
    obtain ⟨d, hd, hdall⟩ := call_visa_log { s with visa_locked := true }
      (cmd.mnemonic ++ "? " ++ argstr) stack res now
    rcases hcv : Instrument._call_visa { s with visa_locked := true }
        (cmd.mnemonic ++ "? " ++ argstr) stack res now with ⟨cr, s1⟩
    rw [hcv] at hd
    cases cr with
    | ok r => exact ⟨d, by simpa using hd, hdall⟩
    | error e =>
      rcases e with ie | tmo | pe
      · exact ⟨d, by simpa using hd, hdall⟩
      · cases tmo
        · exact ⟨d, by simpa using hd, hdall⟩
        · simp only
          by_cases hex : s1.exception_on_error = true
          · rw [if_pos (by simpa using hex)]
            cases hq : s1.error_queue with
            | cons e2 r2 => exact ⟨d, by simpa using hd, hdall⟩
            | nil =>
              cases late with
              | some e3 => exact ⟨d, by simpa using hd, hdall⟩
              | none => exact ⟨d, by simpa using hd, hdall⟩
          · rw [if_neg (by simpa using hex)]
            exact ⟨d, by simpa using hd, hdall⟩
      · exact ⟨d, by simpa using hd, hdall⟩

/-- The service-request handler never decreases the command counter. -/
theorem srq_cnt_le (s : Instrument) (duration stb : Nat) (esrRes drainRes : VisaResult)
    (stack : Stack) (now : Nat) :
    s.command_cnt
      ≤ (s._service_request_handler duration stb esrRes drainRes stack
          now).2.command_cnt := by
  unfold Instrument._service_request_handler
  dsimp only
  by_cases h5 : stb &&& 32 ≠ 0
  · rw [if_pos h5]
    split
    · next e s2 heq => simpa using call_visa_cnt_le2 heq
    · next esrStr s2 heq =>
      split
      · simpa using call_visa_cnt_le2 heq
      · by_cases h2 : stb &&& (1 <<< 2) ≠ 0
        · rw [if_pos h2]
          split
          · next a st2 hgq =>
            have hg := geq_cnt_le2 hgq
            have hc := call_visa_cnt_le2 heq
            simp at hg hc ⊢
            omega
          · next e st2 hgq =>
            have hg := geq_cnt_le2 hgq
            have hc := call_visa_cnt_le2 heq
            simp at hg hc ⊢
            omega
        · rw [if_neg h2]
          simpa using call_visa_cnt_le2 heq
  · rw [if_neg h5]
    by_cases h2 : stb &&& (1 <<< 2) ≠ 0
    · rw [if_pos h2]
      split
      · next a st2 hgq =>
        have hg := geq_cnt_le2 hgq
        first
        | (simp at hg ⊢; omega)
        | (simp at hg ⊢)
      · next e st2 hgq =>
        have hg := geq_cnt_le2 hgq
        first
        | (simp at hg ⊢; omega)
        | (simp at hg ⊢)
    · have h2n : stb &&& 4 = 0 := by simpa using h2
      simp [h2n]

/-- Every ghost-log entry added by the service-request handler carries lock
flag `true` (the handler holds the IO lock for its whole body). -/
theorem srq_log (s : Instrument) (duration stb : Nat) (esrRes drainRes : VisaResult)
    (stack : Stack) (now : Nat) :
    ∃ d, (s._service_request_handler duration stb esrRes drainRes stack
        now).2.cnt_log = s.cnt_log ++ d
    ∧ ∀ p ∈ d, p.2 = true := by
  unfold Instrument._service_request_handler
  dsimp only
  by_cases h5 : stb &&& 32 ≠ 0
  · rw [if_pos h5]
    split
    · next e s2 heq =>
      obtain ⟨d, hd, hdall⟩ := call_visa_log2 heq
      simp at hd
      exact ⟨d, by simpa using hd, hdall⟩
    · next esrStr s2 heq =>
      have hlock : s2.visa_locked = true := by
        have := (call_visa_locks2 heq).1
        simpa using this
      split
      · obtain ⟨d, hd, hdall⟩ := call_visa_log2 heq
        simp at hd
        exact ⟨d, by simpa using hd, hdall⟩
      · by_cases h2 : stb &&& (1 <<< 2) ≠ 0
        · rw [if_pos h2]
          split
          · next a st2 hgq =>
            obtain ⟨d, hd, hdall⟩ := call_visa_log2 heq
            obtain ⟨d2, hd2, hd2all⟩ := geq_log2 hgq
            simp at hd hd2
            refine ⟨d ++ d2, ?_, ?_⟩
            · simp only []
              rw [hd2, hd, List.append_assoc]
            · intro p hp
              rcases List.mem_append.mp hp with h | h
              · exact hdall p h
              · rw [hd2all p h, hlock]
          · next e st2 hgq =>
            obtain ⟨d, hd, hdall⟩ := call_visa_log2 heq
            obtain ⟨d2, hd2, hd2all⟩ := geq_log2 hgq
            simp at hd hd2
            refine ⟨d ++ d2, ?_, ?_⟩
            · simp only []
              rw [hd2, hd, List.append_assoc]
            · intro p hp
              rcases List.mem_append.mp hp with h | h
              · exact hdall p h
              · rw [hd2all p h, hlock]
        · rw [if_neg h2]
          obtain ⟨d, hd, hdall⟩ := call_visa_log2 heq
          simp at hd
          exact ⟨d, by simpa using hd, hdall⟩
  · rw [if_neg h5]
    by_cases h2 : stb &&& (1 <<< 2) ≠ 0
    · rw [if_pos h2]
      split
      · next a st2 hgq =>
        obtain ⟨d2, hd2, hd2all⟩ := geq_log2 hgq
        simp at hd2
        exact ⟨d2, by simpa using hd2, hd2all⟩
      · next e st2 hgq =>
        obtain ⟨d2, hd2, hd2all⟩ := geq_log2 hgq
        simp at hd2
        exact ⟨d2, by simpa using hd2, hd2all⟩
    · have h2n : stb &&& 4 = 0 := by simpa using h2
      exact ⟨[], by simp [h2n], by simp⟩

/-- `init` never decreases the command counter. -/
theorem init_cnt_le (s : Instrument) (stack : Stack) (res : VisaResult) (now : Nat) :
    s.command_cnt ≤ (s.init stack res now).2.command_cnt := by
  unfold Instrument.init Instrument._write
  rcases hcv : Instrument._call_visa s "*CLS;*ESE 127;*SRE 36" stack res now
    with ⟨cr, s1⟩
  have h1 := call_visa_cnt_le2 hcv
  cases cr <;> simpa using h1

/-- When the IO lock is free, every ghost-log entry added by `init` carries
lock flag `false` — `init` goes through `_write`, which takes no lock. -/
theorem init_log (s : Instrument) (stack : Stack) (res : VisaResult) (now : Nat)
    (hvl : s.visa_locked = false) :
    ∃ d, (s.init stack res now).2.cnt_log = s.cnt_log ++ d
    ∧ ∀ p ∈ d, p.2 = false := by
  unfold Instrument.init Instrument._write
  rcases hcv : Instrument._call_visa s "*CLS;*ESE 127;*SRE 36" stack res now
    with ⟨cr, s1⟩
  obtain ⟨d, hd, hdall⟩ := call_visa_log2 hcv
  cases cr <;>
    exact ⟨d, by simpa using hd, fun p hp => by rw [hdall p hp, hvl]⟩

/-- C1 (counterexample).  In the end-to-end scenario — service request on the
second issued command, status byte with the error-queue bit set, drained
response `-113,"Undefined header"` — exactly one
`InstrumentError(-113, "Undefined header")` is queued, but its correlated
stack is *absent*: the message contains no three-uppercase-letter run, so the
regex's group 3 is `None` and no debug-history lookup happens.  This
falsifies the claim's "its correlated stack field is non-absent". -/
theorem C1_counterexample :
    c1_after_handler.error_queue = [⟨-113, "Undefined header", none⟩]
  ∧ ¬ (∃ e ∈ c1_after_handler.error_queue, e.stack.isSome = true) := by
  decide

/-- C1 (amended).  End-to-end correlation with the stack field corrected to
*absent*: the handler run succeeds, exactly one
`InstrumentError(code = -113, message = "Undefined header")` with an absent
stack is placed on the error queue, and the next `write()` call raises
exactly that error, leaving the queue empty. -/
theorem C1_amended_theorem :
    c1_handler_run.1 = .ok ()
  ∧ c1_after_handler.error_queue = [⟨-113, "Undefined header", none⟩]
  ∧ (c1_after_handler.write c1_probe [] [] c1_stack (.ok "") 4).1
      = .error (.instr ⟨-113, "Undefined header", none⟩)
  ∧ (c1_after_handler.write c1_probe [] [] c1_stack (.ok "") 4).2.error_queue
      = [] := by
  decide

/-- C2 (counterexample).  A `write` dispatch with error-raising enabled, a
non-empty error queue and a free callback guard does *not* pop and raise the
queued error when its argument formatting fails: `write` builds the argument
string before the queue check, so the `IndexError` from the template `"{0}"`
with no arguments preempts the queued-error raise and the queue is left
untouched.  This falsifies the claim's "at every write or query dispatch". -/
theorem C2_counterexample :
    (({ Instrument.fresh with
        error_queue := [⟨-200, "queued fault", none⟩] } : Instrument).write
        ⟨"*IDN", []⟩ [] [("fmt", .str "\x7b0\x7d")] [] (.ok "") 0).1
      = .error (.py .indexError)
  ∧ (({ Instrument.fresh with
        error_queue := [⟨-200, "queued fault", none⟩] } : Instrument).write
        ⟨"*IDN", []⟩ [] [("fmt", .str "\x7b0\x7d")] [] (.ok "") 0).2.error_queue
      = [⟨-200, "queued fault", none⟩] := by
  decide

/-- C2 (amended).  Lazy error delivery, restricted to dispatches whose
argument formatting succeeds: if error-raising is enabled, the error queue is
non-empty and the callback-guard lock is not held, `write` and `query` pop
the oldest queued `InstrumentError` and raise it before making any transport
call (the counter and the ghost increment log are untouched, and the result
does not depend on the transport oracle); with error-raising disabled, no
`write`/`query` dispatch ever raises a queued error and the error queue is
left unchanged, so accumulated errors remain retrievable in FIFO order. -/
theorem C2_amended_theorem :
    (∀ (s : Instrument) (cmd : SCPICmd) (args : List PyVal)
       (kwargs : List (String × PyVal)) (stack : Stack) (res : VisaResult) (now : Nat)
       (argstr : String) (e : InstrumentError) (rest : List InstrumentError),
       Instrument._build_arg_str cmd args kwargs = .ok argstr →
       s.exception_on_error = true → s.error_queue = e :: rest →
       s.in_callback_held = false →
       (s.write cmd args kwargs stack res now).1 = .error (.instr e)
     ∧ (s.write cmd args kwargs stack res now).2.error_queue = rest
     ∧ (s.write cmd args kwargs stack res now).2.command_cnt = s.command_cnt
     ∧ (s.write cmd args kwargs stack res now).2.cnt_log = s.cnt_log)
  ∧ (∀ (s : Instrument) (cmd : SCPICmd) (args : List PyVal)
       (kwargs : List (String × PyVal)) (stack : Stack) (res : VisaResult)
       (late : Option InstrumentError) (now : Nat)
       (argstr : String) (e : InstrumentError) (rest : List InstrumentError),
       Instrument._build_arg_str cmd args kwargs = .ok argstr →
       s.exception_on_error = true → s.error_queue = e :: rest →
       s.in_callback_held = false →
       (s.query cmd args kwargs stack res late now).1 = .error (.instr e)
     ∧ (s.query cmd args kwargs stack res late now).2.error_queue = rest
     ∧ (s.query cmd args kwargs stack res late now).2.command_cnt = s.command_cnt
     ∧ (s.query cmd args kwargs stack res late now).2.cnt_log = s.cnt_log)
  ∧ (∀ (s : Instrument) (cmd : SCPICmd) (args : List PyVal)
       (kwargs : List (String × PyVal)) (stack : Stack) (res : VisaResult) (now : Nat),
       s.exception_on_error = false →
       (s.write cmd args kwargs stack res now).2.error_queue = s.error_queue
     ∧ ∀ ierr : InstrumentError,
         (s.write cmd args kwargs stack res now).1 ≠ .error (.instr ierr))
  ∧ (∀ (s : Instrument) (cmd : SCPICmd) (args : List PyVal)
       (kwargs : List (String × PyVal)) (stack : Stack) (res : VisaResult)
       (late : Option InstrumentError) (now : Nat),
       s.exception_on_error = false →
       (s.query cmd args kwargs stack res late now).2.error_queue = s.error_queue
     ∧ ∀ ierr : InstrumentError,
         (s.query cmd args kwargs stack res late now).1 ≠ .error (.instr ierr)) := by
  refine ⟨?_, ?_, ?_, ?_⟩
  · intro s cmd args kwargs stack res now argstr e rest hb hex hq hcb
    unfold Instrument.write Instrument._call_visa Instrument.check_error_queue
    rw [hb]
    simp [hex, hq, hcb]
  · intro s cmd args kwargs stack res late now argstr e rest hb hex hq hcb
    unfold Instrument.query Instrument._call_visa Instrument.check_error_queue
    rw [hb]
    simp [hex, hq, hcb]
  · intro s cmd args kwargs stack res now hex
    unfold Instrument.write Instrument._call_visa Instrument.check_error_queue
    cases hb : Instrument._build_arg_str cmd args kwargs with
    | error pe => simp
    | ok argstr => rcases res with r | tmo <;> simp [hex]
  · intro s cmd args kwargs stack res late now hex
    unfold Instrument.query Instrument._call_visa Instrument.check_error_queue
    cases hb : Instrument._build_arg_str cmd args kwargs with
    | error pe => simp
    | ok argstr =>
      rcases res with r | tmo
      · simp [hex]
      · cases tmo <;> simp [hex]

/-- C2 (witness).  A concrete enabled dispatch with one queued error: the
`write` raises exactly it, pops the queue, and leaves the counter and log
unchanged. -/
theorem C2_witness :
    (({ Instrument.fresh with
        error_queue := [⟨-200, "queued fault", none⟩] } : Instrument).write
        ⟨"*IDN", []⟩ [] [] [] (.ok "") 0).1
      = .error (.instr ⟨-200, "queued fault", none⟩)
  ∧ (({ Instrument.fresh with
        error_queue := [⟨-200, "queued fault", none⟩] } : Instrument).write
        ⟨"*IDN", []⟩ [] [] [] (.ok "") 0).2.error_queue = []
  ∧ (({ Instrument.fresh with
        error_queue := [⟨-200, "queued fault", none⟩] } : Instrument).write
        ⟨"*IDN", []⟩ [] [] [] (.ok "") 0).2.command_cnt
      = ({ Instrument.fresh with
          error_queue := [⟨-200, "queued fault", none⟩] } : Instrument).command_cnt := by
  have h := C2_amended_theorem.1
    ({ Instrument.fresh with error_queue := [⟨-200, "queued fault", none⟩] })
    ⟨"*IDN", []⟩ [] [] [] (.ok "") 0 "" ⟨-200, "queued fault", none⟩ []
    (by decide) rfl rfl rfl
  exact ⟨h.1, h.2.1, h.2.2.1⟩

/-- C3.  Fallback guarantee: whenever the notification handler drains the
device error queue (it holds the callback guard, so the queued-error check
cannot preempt the drain) and the regex extracts zero records from the
response, `_get_error_queue` succeeds and pushes exactly one fallback
`InstrumentError` with code `-1`, message equal to the raw response text and
an absent stack — the error queue is never left empty after the instrument
signalled a fault. -/
theorem C3_theorem (s : Instrument) (stack : Stack) (raw : String) (now : Nat)
    (hcb : s.in_callback_held = true) (hrec : findRecords raw.toList = []) :
    (Instrument._get_error_queue s stack (.ok raw) now).1 = .ok ()
  ∧ (Instrument._get_error_queue s stack (.ok raw) now).2.error_queue
      = s.error_queue ++ [⟨-1, raw, none⟩]
  ∧ (Instrument._get_error_queue s stack (.ok raw) now).2.error_queue ≠ [] := by
  have hrec2 : findRecords raw.data = [] := hrec
  unfold Instrument._get_error_queue Instrument._query Instrument._call_visa
    Instrument.check_error_queue
  simp [hcb, hrec2]

/-- C3 (witness).  Draining a response that matches none of the regex's
patterns pushes exactly the fallback error. -/
theorem C3_witness :
    (Instrument._get_error_queue
        ({ Instrument.fresh with in_callback_held := true }) ["frame"]
        (.ok "unparseable noise") 0).1 = .ok ()
  ∧ (Instrument._get_error_queue
        ({ Instrument.fresh with in_callback_held := true }) ["frame"]
        (.ok "unparseable noise") 0).2.error_queue
      = ({ Instrument.fresh with in_callback_held := true } : Instrument).error_queue
        ++ [⟨-1, "unparseable noise", none⟩]
  ∧ (Instrument._get_error_queue
        ({ Instrument.fresh with in_callback_held := true }) ["frame"]
        (.ok "unparseable noise") 0).2.error_queue ≠ [] :=
  C3_theorem ({ Instrument.fresh with in_callback_held := true }) ["frame"]
    "unparseable noise" 0 rfl (by decide)

/-- C10.  The notification handler's internal reads go through the same
`_call_visa` dispatch path as caller commands: on a handler invocation whose
internal transport calls succeed (and whose `*ESR?` response parses as an
integer when bit 5 requires reading it), the command counter advances by one
per internal read — `*ESR?` when status-byte bit 5 is set, `SYSTem:ERRor:ALL?`
when the error-queue bit is set — and the ghost log records the corresponding
debug-history insertion for each internal command, under the IO lock. -/
theorem C10_theorem (s : Instrument) (duration stb : Nat) (esrRaw drainRaw : String)
    (stack : Stack) (now : Nat)
    (hesr : stb &&& 32 ≠ 0 → (pyIntParse esrRaw).isSome = true) :
    (s._service_request_handler duration stb (.ok esrRaw) (.ok drainRaw) stack now).1
      = .ok ()
  ∧ (s._service_request_handler duration stb (.ok esrRaw) (.ok drainRaw) stack
      now).2.command_cnt
      = s.command_cnt + (if stb &&& 32 ≠ 0 then 1 else 0)
        + (if stb &&& (1 <<< 2) ≠ 0 then 1 else 0)
  ∧ (s._service_request_handler duration stb (.ok esrRaw) (.ok drainRaw) stack
      now).2.cnt_log
      = s.cnt_log ++ (if stb &&& 32 ≠ 0 then [("*ESR?", true)] else [])
        ++ (if stb &&& (1 <<< 2) ≠ 0 then [("SYSTem:ERRor:ALL?", true)] else []) := by
  unfold Instrument._service_request_handler Instrument._get_error_queue
    Instrument._query Instrument._call_visa Instrument.check_error_queue
  by_cases h5 : stb &&& 32 ≠ 0
  · obtain ⟨n, hn⟩ := Option.isSome_iff_exists.mp (hesr h5)
    by_cases h2 : stb &&& (1 <<< 2) ≠ 0
    · have h2n : ¬ stb &&& 4 = 0 := by simpa using h2
      cases hfr : findRecords drainRaw.data with
      | nil =>
        simp [h5, h2, h2n, hn, hfr, push_parsed_foldl_cnt, push_parsed_foldl_log,
          Instrument.push_parsed_error]
      | cons r rs =>
        simp [h5, h2, h2n, hn, hfr, push_parsed_foldl_cnt, push_parsed_foldl_log,
          Instrument.push_parsed_error]
    · have h2n : stb &&& 4 = 0 := by simpa using h2
      simp [h5, h2, h2n, hn]
  · by_cases h2 : stb &&& (1 <<< 2) ≠ 0
    · have h2n : ¬ stb &&& 4 = 0 := by simpa using h2
      cases hfr : findRecords drainRaw.data with
      | nil =>
        simp [h5, h2, h2n, hfr, push_parsed_foldl_cnt, push_parsed_foldl_log,
          Instrument.push_parsed_error]
      | cons r rs =>
        simp [h5, h2, h2n, hfr, push_parsed_foldl_cnt, push_parsed_foldl_log,
          Instrument.push_parsed_error]
    · have h2n : stb &&& 4 = 0 := by simpa using h2
      simp [h5, h2, h2n]

/-- C10 (witness).  A handler run with both bit 5 and bit 2 set advances the
counter by two and logs both internal commands under the lock. -/
theorem C10_witness :
    (Instrument.fresh._service_request_handler 0 36 (.ok "4")
        (.ok "-100,\"Command error\"") ["frame"] 0).1 = .ok ()
  ∧ (Instrument.fresh._service_request_handler 0 36 (.ok "4")
        (.ok "-100,\"Command error\"") ["frame"] 0).2.command_cnt
      = Instrument.fresh.command_cnt + (if 36 &&& 32 ≠ 0 then 1 else 0)
        + (if 36 &&& (1 <<< 2) ≠ 0 then 1 else 0)
  ∧ (Instrument.fresh._service_request_handler 0 36 (.ok "4")
        (.ok "-100,\"Command error\"") ["frame"] 0).2.cnt_log
      = Instrument.fresh.cnt_log
        ++ (if 36 &&& 32 ≠ 0 then [("*ESR?", true)] else [])
        ++ (if 36 &&& (1 <<< 2) ≠ 0 then [("SYSTem:ERRor:ALL?", true)] else []) :=
  C10_theorem Instrument.fresh 0 36 "4" "-100,\"Command error\"" ["frame"] 0
    (by decide)

/-- C4 (counterexample).  `init` sends `*CLS;*ESE 127;*SRE 36` through
`_write`, which calls `_call_visa` without acquiring `_visa_lock`: starting
from a fresh instrument, the single counter increment is logged with the IO
lock *not* held, falsifying "every mutation of the counter occurs while the
exclusive IO lock is held — including the initialisation path". -/
theorem C4_counterexample :
    ((Instrument.fresh.init ["frame"] (.ok "") 0).2.cnt_log
      = [("*CLS;*ESE 127;*SRE 36", false)])
  ∧ ¬ (∀ p ∈ (Instrument.fresh.init ["frame"] (.ok "") 0).2.cnt_log,
        p.2 = true) := by
  decide

/-- C4 (amended).  The command counter is non-decreasing over every operation
and every operation sequence; every counter mutation performed by the `write`
and `query` dispatchers and by the service-request handler happens while the
exclusive IO lock is held; but the initialisation path (`init` → `_write`)
performs its increment without taking the lock — when the lock is free, its
log entries carry lock flag `false`. -/
theorem C4_amended_theorem :
    (∀ (s : Instrument) (op : InstrOp), s.command_cnt ≤ (stepOp s op).command_cnt)
  ∧ (∀ (s : Instrument) (ops : List InstrOp),
       s.command_cnt ≤ (ops.foldl stepOp s).command_cnt)
  ∧ (∀ (s : Instrument) (cmd : SCPICmd) (args : List PyVal)
       (kwargs : List (String × PyVal)) (stack : Stack) (res : VisaResult) (now : Nat),
       ∃ d, (s.write cmd args kwargs stack res now).2.cnt_log = s.cnt_log ++ d
       ∧ ∀ p ∈ d, p.2 = true)
  ∧ (∀ (s : Instrument) (cmd : SCPICmd) (args : List PyVal)
       (kwargs : List (String × PyVal)) (stack : Stack) (res : VisaResult)
       (late : Option InstrumentError) (now : Nat),
       ∃ d, (s.query cmd args kwargs stack res late now).2.cnt_log = s.cnt_log ++ d
       ∧ ∀ p ∈ d, p.2 = true)
  ∧ (∀ (s : Instrument) (duration stb : Nat) (esrRes drainRes : VisaResult)
       (stack : Stack) (now : Nat),
       ∃ d, (s._service_request_handler duration stb esrRes drainRes stack
           now).2.cnt_log = s.cnt_log ++ d
       ∧ ∀ p ∈ d, p.2 = true)
  ∧ (∀ (s : Instrument) (stack : Stack) (res : VisaResult) (now : Nat),
       s.visa_locked = false →
       ∃ d, (s.init stack res now).2.cnt_log = s.cnt_log ++ d
       ∧ ∀ p ∈ d, p.2 = false) := by
  have hstep : ∀ (s : Instrument) (op : InstrOp),
      s.command_cnt ≤ (stepOp s op).command_cnt := by
    intro s op
    cases op with
    | write cmd args kwargs stack res now =>
        exact write_cnt_le s cmd args kwargs stack res now
    | query cmd args kwargs stack res late now =>
        exact query_cnt_le s cmd args kwargs stack res late now
    | initOp stack res now => exact init_cnt_le s stack res now
    | srq duration stb esrRes drainRes stack now =>
        exact srq_cnt_le s duration stb esrRes drainRes stack now
  refine ⟨hstep, ?_, write_log, query_log, srq_log, init_log⟩
  intro s ops
  induction ops generalizing s with
  | nil => exact le_refl _
  | cons op ops ih => exact le_trans (hstep s op) (ih (stepOp s op))

/-- C4 (witness).  The initialisation conjunct at a fresh instrument: its
single increment is logged with the lock flag `false`. -/
theorem C4_witness :
    ∃ d, (Instrument.fresh.init ["frame"] (.ok "") 0).2.cnt_log
        = Instrument.fresh.cnt_log ++ d
    ∧ ∀ p ∈ d, p.2 = false :=
  C4_amended_theorem.2.2.2.2.2 Instrument.fresh ["frame"] (.ok "") 0 rfl

/-- C6.  Query timeout grace period: the wait on the error queue uses the
source's literal one-second timeout; when a query's transport call raises a
VISA timeout and error-raising is enabled, the dispatcher raises the queued
`InstrumentError` if one is available (popping it) or one arriving during
the bounded wait, and re-raises the original timeout otherwise; with raising
disabled the timeout is re-raised directly; and a `write` failure gets no
grace wait — with an empty queue a write timeout is always re-raised as-is,
the model's `write` not even consulting an arrival oracle. -/
theorem C6_theorem :
    query_error_wait_timeout = 1
  ∧ (∀ (s : Instrument) (cmd : SCPICmd) (args : List PyVal)
       (kwargs : List (String × PyVal)) (stack : Stack)
       (late : Option InstrumentError) (now : Nat) (argstr : String)
       (e : InstrumentError) (rest : List InstrumentError),
       Instrument._build_arg_str cmd args kwargs = .ok argstr →
       s.exception_on_error = true → s.in_callback_held = true →
       s.error_queue = e :: rest →
       (s.query cmd args kwargs stack (.err true) late now).1 = .error (.instr e)
     ∧ (s.query cmd args kwargs stack (.err true) late now).2.error_queue = rest)
  ∧ (∀ (s : Instrument) (cmd : SCPICmd) (args : List PyVal)
       (kwargs : List (String × PyVal)) (stack : Stack) (now : Nat) (argstr : String)
       (errLate : InstrumentError),
       Instrument._build_arg_str cmd args kwargs = .ok argstr →
       s.exception_on_error = true → s.error_queue = [] →
       (s.query cmd args kwargs stack (.err true) (some errLate) now).1
         = .error (.instr errLate))
  ∧ (∀ (s : Instrument) (cmd : SCPICmd) (args : List PyVal)
       (kwargs : List (String × PyVal)) (stack : Stack) (now : Nat) (argstr : String),
       Instrument._build_arg_str cmd args kwargs = .ok argstr →
       s.exception_on_error = true → s.error_queue = [] →
       (s.query cmd args kwargs stack (.err true) none now).1
         = .error (.visaErr true))
  ∧ (∀ (s : Instrument) (cmd : SCPICmd) (args : List PyVal)
       (kwargs : List (String × PyVal)) (stack : Stack)
       (late : Option InstrumentError) (now : Nat) (argstr : String),
       Instrument._build_arg_str cmd args kwargs = .ok argstr →
       s.exception_on_error = false →
       (s.query cmd args kwargs stack (.err true) late now).1
         = .error (.visaErr true))
  ∧ (∀ (s : Instrument) (cmd : SCPICmd) (args : List PyVal)
       (kwargs : List (String × PyVal)) (stack : Stack) (now : Nat) (argstr : String),
       Instrument._build_arg_str cmd args kwargs = .ok argstr →
       s.error_queue = [] →
       (s.write cmd args kwargs stack (.err true) now).1 = .error (.visaErr true)
     ∧ (s.write cmd args kwargs stack (.err true) now).2.error_queue = []) := by
  refine ⟨rfl, ?_, ?_, ?_, ?_, ?_⟩
  · intro s cmd args kwargs stack late now argstr e rest hb hex hcb hq
    unfold Instrument.query Instrument._call_visa Instrument.check_error_queue
    rw [hb]
    simp [hex, hq, hcb]
  · intro s cmd args kwargs stack now argstr errLate hb hex hq
    unfold Instrument.query Instrument._call_visa Instrument.check_error_queue
    rw [hb]
    simp [hex, hq]
  · intro s cmd args kwargs stack now argstr hb hex hq
    unfold Instrument.query Instrument._call_visa Instrument.check_error_queue
    rw [hb]
    simp [hex, hq]
  · intro s cmd args kwargs stack late now argstr hb hex
    unfold Instrument.query Instrument._call_visa Instrument.check_error_queue
    rw [hb]
    simp [hex]
  · intro s cmd args kwargs stack now argstr hb hq
    unfold Instrument.write Instrument._call_visa Instrument.check_error_queue
    rw [hb]
    simp [hq]

/-- C6 (witness).  A query timeout on an empty queue with an error arriving
during the grace wait raises that error instead of the timeout; the same
timeout with no arrival re-raises the timeout; a write timeout re-raises the
timeout. -/
theorem C6_witness :
    (Instrument.fresh.query ⟨"*IDN", []⟩ [] [] [] (.err true)
        (some ⟨-410, "Query interrupted", none⟩) 0).1
      = .error (.instr ⟨-410, "Query interrupted", none⟩)
  ∧ (Instrument.fresh.query ⟨"*IDN", []⟩ [] [] [] (.err true) none 0).1
      = .error (.visaErr true)
  ∧ (Instrument.fresh.write ⟨"*IDN", []⟩ [] [] [] (.err true) 0).1
      = .error (.visaErr true) := by
  have h := C6_theorem
  exact ⟨h.2.2.1 Instrument.fresh ⟨"*IDN", []⟩ [] [] [] 0 ""
      ⟨-410, "Query interrupted", none⟩ (by decide) rfl rfl,
    h.2.2.2.1 Instrument.fresh ⟨"*IDN", []⟩ [] [] [] 0 "" (by decide) rfl rfl,
    (h.2.2.2.2.2 Instrument.fresh ⟨"*IDN", []⟩ [] [] [] 0 "" (by decide) rfl).1⟩
